import Mathlib

/-!
Shallow embedding of the Apple Pay proof-of-concept backend
(`server/services/authorizeNet.js` and the Apple Pay router) together with
models of the JavaScript standard-library operations it relies on
(`JSON.stringify` / `JSON.parse`, base64 via `Buffer`, UTF-8 bytes).
Strings are modelled as `List Char`; JavaScript values as the `Json` type
(numbers as rationals); fallible operations return `Option` / `Except`.
-/

set_option maxHeartbeats 1600000
set_option maxRecDepth 4000

namespace ApplePayPoc

/-! ### Generic string helpers -/

/-- `leadsWith pat s` is true when `pat` occurs at the very front of `s`. -/
def leadsWith : List Char → List Char → Bool
  | [], _ => true
  | _ :: _, [] => false
  | p :: ps, c :: cs => p = c && leadsWith ps cs

/-- `hasSub pat s`: `pat` occurs somewhere in `s` (as a contiguous run). -/
def hasSub (pat : List Char) : List Char → Bool
  | [] => leadsWith pat []
  | c :: rest => leadsWith pat (c :: rest) || hasSub pat rest

/-- Count the occurrences of a character in a string. -/
def countChar (c : Char) (l : List Char) : Nat := l.count c

/-- Decimal digits of a natural number, most significant first (fuelled). -/
def natDigitsAux : Nat → Nat → List Char
  | 0, _ => []
  | fuel + 1, n => if n = 0 then [] else natDigitsAux fuel (n / 10) ++ [Char.ofNat (48 + n % 10)]

/-- Decimal rendering of a natural number (as JavaScript renders integers). -/
def natToChars (n : Nat) : List Char :=
  if n = 0 then ['0'] else natDigitsAux (n + 1) n

/-! ### The JavaScript value / JSON data model -/

/-- JavaScript data values as they appear in this program: JSON values with
rational numbers standing in for JS numbers. -/
inductive Json where
  | null : Json
  | bool (b : Bool) : Json
  | num (q : ℚ) : Json
  | str (s : List Char) : Json
  | arr (elems : List Json) : Json
  | obj (fields : List (List Char × Json)) : Json

/-- Property lookup `o.k` on an object: `none` models JS `undefined`. -/
def objGet (v : Json) (k : List Char) : Option Json :=
  match v with
  | .obj fields =>
    match fields.find? (fun f => f.1 = k) with
    | some f => some f.2
    | none => none
  | _ => none

/-- JS truthiness of a possibly-absent value (`undefined`, `null`, `false`,
`0`, `""` are falsy). NaN is not representable in the rational model. -/
def jsTruthy : Option Json → Bool
  | none => false
  | some .null => false
  | some (.bool b) => b
  | some (.num q) => !(q = 0)
  | some (.str s) => !(s = [])
  | some (.arr _) => true
  | some (.obj _) => true

/-! ### `JSON.stringify` (compact form, as the code calls it) -/

/-- Lower-case hex digit. -/
def hexDigitChar (n : Nat) : Char := if n < 10 then Char.ofNat (48 + n) else Char.ofNat (87 + n)

/-- How `JSON.stringify` renders one character inside a string literal. -/
def escJsonChar (c : Char) : List Char :=
  if c = '"' then ['\\', '"']
  else if c = '\\' then ['\\', '\\']
  else if c = '\x08' then ['\\', 'b']
  else if c = '\x0c' then ['\\', 'f']
  else if c = '\n' then ['\\', 'n']
  else if c = '\r' then ['\\', 'r']
  else if c = '\t' then ['\\', 't']
  else if c.toNat < 32 then
    ['\\', 'u', '0', '0', hexDigitChar (c.toNat / 16), hexDigitChar (c.toNat % 16)]
  else [c]

/-- A JSON string literal: quotes around the escaped content. -/
def quoteJson (s : List Char) : List Char := '"' :: s.flatMap escJsonChar ++ ['"']

/-- Decimal rendering of a rational, in the style of JS number printing
(integer part, then fractional digits by long division, up to 20 digits). -/
def fracDigitsAux : Nat → Nat → Nat → List Char
  | 0, _, _ => []
  | fuel + 1, r, d =>
    if r = 0 ∨ d = 0 then [] else Char.ofNat (48 + r * 10 / d) :: fracDigitsAux fuel (r * 10 % d) d

def numToChars (q : ℚ) : List Char :=
  (if q < 0 then ['-'] else []) ++ natToChars (q.num.natAbs / q.den) ++
    (if q.num.natAbs % q.den = 0 then [] else
      '.' :: fracDigitsAux 20 (q.num.natAbs % q.den) q.den)

mutual

/-- `JSON.stringify` (no spacing argument): compact serialization. -/
def stringifyVal : Json → List Char
  | .null => "null".data
  | .bool true => "true".data
  | .bool false => "false".data
  | .num q => numToChars q
  | .str s => quoteJson s
  | .arr es => '[' :: stringifyElems es ++ [']']
  | .obj fs => '{' :: stringifyMembers fs ++ ['}']

/-- Comma-separated array elements. -/
def stringifyElems : List Json → List Char
  | [] => []
  | [e] => stringifyVal e
  | e :: e2 :: es => stringifyVal e ++ ',' :: stringifyElems (e2 :: es)

/-- Comma-separated `"key":value` members, in insertion order. -/
def stringifyMembers : List (List Char × Json) → List Char
  | [] => []
  | [(k, v)] => quoteJson k ++ ':' :: stringifyVal v
  | (k, v) :: m2 :: ms => quoteJson k ++ ':' :: stringifyVal v ++ ',' :: stringifyMembers (m2 :: ms)

end

/-! ### `JSON.parse` -/

def isJsonWs (c : Char) : Bool := c = ' ' || c = '\t' || c = '\n' || c = '\r'

def skipWs : List Char → List Char
  | [] => []
  | c :: cs => if isJsonWs c then skipWs cs else c :: cs

def hexVal (c : Char) : Option Nat :=
  if '0' ≤ c ∧ c ≤ '9' then some (c.toNat - 48)
  else if 'a' ≤ c ∧ c ≤ 'f' then some (c.toNat - 87)
  else if 'A' ≤ c ∧ c ≤ 'F' then some (c.toNat - 55)
  else none

def unescChar (e : Char) : Option Char :=
  if e = '"' then some '"'
  else if e = '\\' then some '\\'
  else if e = '/' then some '/'
  else if e = 'b' then some '\x08'
  else if e = 'f' then some '\x0c'
  else if e = 'n' then some '\n'
  else if e = 'r' then some '\r'
  else if e = 't' then some '\t'
  else none

/-- Parse the body of a JSON string literal (opening quote already consumed);
returns the decoded content and the input past the closing quote. -/
def parseStringBody : List Char → Option (List Char × List Char)
  | [] => none
  | c :: rest =>
    if c = '"' then some ([], rest)
    else if c = '\\' then
      match rest with
      | [] => none
      | e :: rest2 =>
        if e = 'u' then
          match rest2 with
          | h1 :: h2 :: h3 :: h4 :: rest3 =>
            match hexVal h1, hexVal h2, hexVal h3, hexVal h4 with
            | some a, some b, some c2, some d =>
              match parseStringBody rest3 with
              | some (s, r) => some (Char.ofNat (((a * 16 + b) * 16 + c2) * 16 + d) :: s, r)
              | none => none
            | _, _, _, _ => none
          | _ => none
        else
          match unescChar e with
          | some c2 =>
            match parseStringBody rest2 with
            | some (s, r) => some (c2 :: s, r)
            | none => none
          | none => none
    else if c.toNat < 32 then none
    else
      match parseStringBody rest with
      | some (s, r) => some (c :: s, r)
      | none => none

def isDigitCh (c : Char) : Bool := '0' ≤ c && c ≤ '9'

def takeDigits : List Char → (List Char × List Char)
  | [] => ([], [])
  | c :: rest =>
    if isDigitCh c then
      let p := takeDigits rest
      (c :: p.1, p.2)
    else ([], c :: rest)

def digitsToNat (ds : List Char) : Nat := ds.foldl (fun acc c => acc * 10 + (c.toNat - 48)) 0

def parseFracPart : List Char → Option (ℚ × List Char)
  | '.' :: r =>
    match takeDigits r with
    | ([], _) => none
    | (ds, r2) => some ((digitsToNat ds : ℚ) / ((10 : ℚ) ^ ds.length), r2)
  | s => some (0, s)

def parseExpPart : List Char → Option (ℚ × List Char)
  | [] => some (1, [])
  | c :: r =>
    if c = 'e' ∨ c = 'E' then
      let p : ℤ × List Char :=
        match r with
        | '+' :: rr => (1, rr)
        | '-' :: rr => (-1, rr)
        | _ => (1, r)
      match takeDigits p.2 with
      | ([], _) => none
      | (ds, r2) => some ((10 : ℚ) ^ (p.1 * (digitsToNat ds : ℤ)), r2)
    else some (1, c :: r)

/-- Integer part of a JSON number: `0` or a nonzero digit followed by digits. -/
def parseIntPart : List Char → Option (Nat × List Char)
  | [] => none
  | c :: r =>
    if c = '0' then some (0, r)
    else if isDigitCh c then
      let p := takeDigits r
      some (digitsToNat (c :: p.1), p.2)
    else none

def parseNumBody (s : List Char) : Option (ℚ × List Char) :=
  let sp : Bool × List Char :=
    match s with
    | '-' :: r => (true, r)
    | _ => (false, s)
  match parseIntPart sp.2 with
  | none => none
  | some (ip, r1) =>
    match parseFracPart r1 with
    | none => none
    | some (fq, r2) =>
      match parseExpPart r2 with
      | none => none
      | some (ex, r3) => some ((if sp.1 then -1 else 1) * ((ip : ℚ) + fq) * ex, r3)

mutual

/-- Fuelled recursive-descent JSON value parser. The fuel bounds the nesting
and member-chain depth; `jsonParse` supplies input length + 1, which always
suffices. -/
def parseValue : Nat → List Char → Option (Json × List Char)
  | 0, _ => none
  | fuel + 1, s =>
    match skipWs s with
    | [] => none
    | c :: rest =>
      if c = '"' then
        match parseStringBody rest with
        | some (str, r) => some (.str str, r)
        | none => none
      else if c = '{' then
        match skipWs rest with
        | '}' :: r2 => some (.obj [], r2)
        | s2 =>
          match parseMembers fuel s2 with
          | some (ms, r2) => some (.obj ms, r2)
          | none => none
      else if c = '[' then
        match skipWs rest with
        | ']' :: r2 => some (.arr [], r2)
        | s2 =>
          match parseElements fuel s2 with
          | some (es, r2) => some (.arr es, r2)
          | none => none
      else if c = 't' then
        match rest with
        | 'r' :: 'u' :: 'e' :: r => some (.bool true, r)
        | _ => none
      else if c = 'f' then
        match rest with
        | 'a' :: 'l' :: 's' :: 'e' :: r => some (.bool false, r)
        | _ => none
      else if c = 'n' then
        match rest with
        | 'u' :: 'l' :: 'l' :: r => some (.null, r)
        | _ => none
      else if c = '-' || isDigitCh c then
        match parseNumBody (c :: rest) with
        | some (q, r) => some (.num q, r)
        | none => none
      else none

/-- Parse a nonempty `"key":value` member chain, consuming the closing `}`. -/
def parseMembers : Nat → List Char → Option (List (List Char × Json) × List Char)
  | 0, _ => none
  | fuel + 1, s =>
    match skipWs s with
    | '"' :: r =>
      match parseStringBody r with
      | some (k, r1) =>
        (match skipWs r1 with
         | ':' :: r2 =>
           match parseValue fuel r2 with
           | some (v, r3) =>
             (match skipWs r3 with
              | ',' :: r4 =>
                match parseMembers fuel r4 with
                | some (ms, r5) => some ((k, v) :: ms, r5)
                | none => none
              | '}' :: r4 => some ([(k, v)], r4)
              | _ => none)
           | none => none
         | _ => none)
      | none => none
    | _ => none

/-- Parse a nonempty element chain, consuming the closing `]`. -/
def parseElements : Nat → List Char → Option (List Json × List Char)
  | 0, _ => none
  | fuel + 1, s =>
    match parseValue fuel s with
    | some (v, r) =>
      (match skipWs r with
       | ',' :: r2 =>
         match parseElements fuel r2 with
         | some (vs, r3) => some (v :: vs, r3)
         | none => none
       | ']' :: r2 => some ([v], r2)
       | _ => none)
    | none => none

end

/-- `JSON.parse`: parse one value, allow trailing whitespace, reject other
trailing content; `none` models the thrown `SyntaxError`. -/
def jsonParse (s : List Char) : Option Json :=
  match parseValue (s.length + 1) s with
  | some (v, rest) => if skipWs rest = [] then some v else none
  | none => none

/-! ### UTF-8 bytes (`Buffer.from(s, 'utf8')`) -/

/-- UTF-8 encoding of one Unicode scalar value. -/
def utf8EncodeChar (c : Char) : List Nat :=
  let n := c.toNat
  if n < 128 then [n]
  else if n < 2048 then [192 + n / 64, 128 + n % 64]
  else if n < 65536 then [224 + n / 4096, 128 + n / 64 % 64, 128 + n % 64]
  else [240 + n / 262144, 128 + n / 4096 % 64, 128 + n / 64 % 64, 128 + n % 64]

def utf8Encode (s : List Char) : List Nat := s.flatMap utf8EncodeChar

/-- A UTF-8 continuation byte (`10xxxxxx`). -/
def contByte (b : Nat) : Bool := 128 ≤ b && b < 192

/-- Decode one UTF-8 scalar from the front of a byte list: the scalar value
and the remaining bytes, or `none` on a malformed sequence. -/
def utf8Step : List Nat → Option (Nat × List Nat)
  | [] => none
  | b :: bs =>
    if b < 128 then some (b, bs)
    else if b < 192 then none
    else if b < 224 then
      match bs with
      | b2 :: bs2 => if contByte b2 then some ((b - 192) * 64 + (b2 - 128), bs2) else none
      | [] => none
    else if b < 240 then
      match bs with
      | b2 :: b3 :: bs3 =>
        if contByte b2 && contByte b3 then
          some (((b - 224) * 64 + (b2 - 128)) * 64 + (b3 - 128), bs3)
        else none
      | _ => none
    else
      match bs with
      | b2 :: b3 :: b4 :: bs4 =>
        if contByte b2 && contByte b3 && contByte b4 then
          some ((((b - 240) * 64 + (b2 - 128)) * 64 + (b3 - 128)) * 64 + (b4 - 128), bs4)
        else none
      | _ => none

/-- Fuelled UTF-8 decoding loop; each step consumes at least one byte, so
the input length bounds the number of scalars. -/
def utf8DecodeAux : Nat → List Nat → Option (List Char)
  | 0, _ => none
  | _ + 1, [] => some []
  | fuel + 1, b :: bs =>
    match utf8Step (b :: bs) with
    | some (n, rest) => (utf8DecodeAux fuel rest).map fun cs => Char.ofNat n :: cs
    | none => none

/-- UTF-8 decoding of a byte list (`buffer.toString('utf8')`); `none` on a
malformed sequence. -/
def utf8Decode (bs : List Nat) : Option (List Char) := utf8DecodeAux (bs.length + 1) bs

/-! ### Base64 (`buffer.toString('base64')` / `Buffer.from(s, 'base64')`) -/

/-- The standard base64 alphabet. -/
def b64Alphabet : List Char :=
  "ABCDEFGHIJKLMNOPQRSTUVWXYZabcdefghijklmnopqrstuvwxyz0123456789+/".data

def b64CharOf (n : Nat) : Char := b64Alphabet.getD n '?'

def b64ValOf (c : Char) : Option Nat := b64Alphabet.indexOf? c

/-- Base64 encoding of a byte list, with `=` padding. -/
def b64encode : List Nat → List Char
  | [] => []
  | [a] => [b64CharOf (a / 4), b64CharOf (a % 4 * 16), '=', '=']
  | [a, b] => [b64CharOf (a / 4), b64CharOf (a % 4 * 16 + b / 16), b64CharOf (b % 16 * 4), '=']
  | a :: b :: c :: rest =>
    b64CharOf (a / 4) :: b64CharOf (a % 4 * 16 + b / 16) ::
      b64CharOf (b % 16 * 4 + c / 64) :: b64CharOf (c % 64) :: b64encode rest

/-- Base64 decoding; `none` on a malformed document. -/
def b64decode : List Char → Option (List Nat)
  | [] => some []
  | c1 :: c2 :: c3 :: c4 :: rest =>
    (match b64ValOf c1, b64ValOf c2 with
     | some v1, some v2 =>
       if c3 = '=' then
         if c4 = '=' ∧ rest = [] then some [v1 * 4 + v2 / 16] else none
       else
         match b64ValOf c3 with
         | some v3 =>
           if c4 = '=' then
             if rest = [] then some [v1 * 4 + v2 / 16, v2 % 16 * 16 + v3 / 4] else none
           else
             match b64ValOf c4 with
             | some v4 =>
               match b64decode rest with
               | some bs =>
                 some ((v1 * 4 + v2 / 16) :: (v2 % 16 * 16 + v3 / 4) :: (v3 % 4 * 64 + v4) :: bs)
               | none => none
             | none => none
         | none => none
     | _, _ => none)
  | _ => none

/-! ### Serializable values and parser fuel accounting -/

/-- Characters that `JSON.stringify` emits verbatim and that survive the
single-byte UTF-8/base64 transport unchanged: printable ASCII. -/
def asciiClean (s : List Char) : Bool := s.all fun c => 32 ≤ c.toNat && c.toNat < 128

mutual

/-- Values for which the re-encoding round-trip is claimed: no numbers (JS
float printing is outside the rational model) and printable-ASCII strings
and keys, as in a real wallet token (`data`/`signature` are base64 text). -/
def serializable : Json → Bool
  | .null => true
  | .bool _ => true
  | .num _ => false
  | .str s => asciiClean s
  | .arr es => serializableElems es
  | .obj fs => serializableMembers fs

def serializableElems : List Json → Bool
  | [] => true
  | e :: es => serializable e && serializableElems es

def serializableMembers : List (List Char × Json) → Bool
  | [] => true
  | (k, v) :: ms => asciiClean k && serializable v && serializableMembers ms

end

mutual

/-- Fuel sufficient for `parseValue` to parse the value back. -/
def fuelNeed : Json → Nat
  | .null => 1
  | .bool _ => 1
  | .num _ => 1
  | .str _ => 1
  | .arr es => fuelNeedElems es + 1
  | .obj fs => fuelNeedMembers fs + 1

def fuelNeedElems : List Json → Nat
  | [] => 0
  | e :: es => max (fuelNeed e) (fuelNeedElems es) + 1

def fuelNeedMembers : List (List Char × Json) → Nat
  | [] => 0
  | (_, v) :: ms => max (fuelNeed v) (fuelNeedMembers ms) + 1

end

/-! ### authorizeNet.js — `escapeXml` -/

mutual

/-- `String(x)` coercion (arrays join their elements with commas). -/
def jsToString : Json → List Char
  | .null => "null".data
  | .bool true => "true".data
  | .bool false => "false".data
  | .num q => numToChars q
  | .str s => s
  | .arr es => jsToStringElems es
  | .obj _ => "[object Object]".data

def jsToStringElems : List Json → List Char
  | [] => []
  | [e] => jsToString e
  | e :: e2 :: es => jsToString e ++ ',' :: jsToStringElems (e2 :: es)

end

/-- One global single-character `String.prototype.replace(/c/g, rep)`. -/
def replaceAll (c : Char) (rep : List Char) : List Char → List Char
  | [] => []
  | x :: xs => (if x = c then rep else [x]) ++ replaceAll c rep xs

/-- The five sequential replaces from `escapeXml` (`&` first, then `<`, `>`,
`"`, `'`). -/
def escapeChars (s : List Char) : List Char :=
  replaceAll '\'' "&apos;".data
    (replaceAll '"' "&quot;".data
      (replaceAll '>' "&gt;".data
        (replaceAll '<' "&lt;".data
          (replaceAll '&' "&amp;".data s))))

/-- `escapeXml(str)`: a falsy argument returns `''`; otherwise `String(str)`
with the five reserved XML characters replaced by entities. -/
def escapeXml (v : Option Json) : List Char :=
  if !(jsTruthy v) then [] else escapeChars (jsToString (v.getD .null))

/-- `escapeXml` applied to a string field. -/
def escapeXmlStr (s : List Char) : List Char := escapeXml (some (.str s))

/-! ### authorizeNet.js — `createXmlRequest` -/

structure BillingAddress where
  firstName : Option (List Char)
  lastName : Option (List Char)
  company : Option (List Char)
  address : Option (List Char)
  city : Option (List Char)
  state : Option (List Char)
  zip : Option (List Char)
  country : Option (List Char)

structure TransactionData where
  refId : List Char
  amount : List Char
  dataDescriptor : List Char
  dataValue : List Char
  invoiceNumber : List Char
  description : List Char
  customerId : List Char
  email : List Char
  billingAddress : BillingAddress

/-- `s || d` on strings: the empty string falls back to the default. -/
def jsOrStr (s : List Char) (d : List Char) : List Char := if s = [] then d else s

/-- `billingAddress?.f || ''`: an absent field becomes the empty string. -/
def optField (o : Option (List Char)) : List Char := jsOrStr (o.getD []) []

/-- The XML template of `createXmlRequest`, with every interpolated field
passed through `escapeXml` exactly as in the source. -/
def createXmlRequest (apiLoginId transactionKey : List Char) (td : TransactionData) : List Char :=
  "<?xml version=\"1.0\" encoding=\"utf-8\"?>\n<createTransactionRequest xmlns=\"AnetApi/xml/v1/schema/AnetApiSchema.xsd\">\n  <merchantAuthentication>\n    <name>".data
  ++ escapeXmlStr apiLoginId ++
  "</name>\n    <transactionKey>".data
  ++ escapeXmlStr transactionKey ++
  "</transactionKey>\n  </merchantAuthentication>\n  <refId>".data
  ++ escapeXmlStr (jsOrStr td.refId []) ++
  "</refId>\n  <transactionRequest>\n    <transactionType>authCaptureTransaction</transactionType>\n    <amount>".data
  ++ escapeXmlStr td.amount ++
  "</amount>\n    <payment>\n      <opaqueData>\n        <dataDescriptor>".data
  ++ escapeXmlStr td.dataDescriptor ++
  "</dataDescriptor>\n        <dataValue>".data
  ++ escapeXmlStr td.dataValue ++
  "</dataValue>\n      </opaqueData>\n    </payment>\n    <order>\n      <invoiceNumber>".data
  ++ escapeXmlStr (jsOrStr td.invoiceNumber []) ++
  "</invoiceNumber>\n      <description>".data
  ++ escapeXmlStr (jsOrStr td.description "Apple Pay Payment".data) ++
  "</description>\n    </order>\n    <customer>\n      <id>".data
  ++ escapeXmlStr (jsOrStr td.customerId []) ++
  "</id>\n      <email>".data
  ++ escapeXmlStr (jsOrStr td.email []) ++
  "</email>\n    </customer>\n    <billTo>\n      <firstName>".data
  ++ escapeXmlStr (optField td.billingAddress.firstName) ++
  "</firstName>\n      <lastName>".data
  ++ escapeXmlStr (optField td.billingAddress.lastName) ++
  "</lastName>\n      <company>".data
  ++ escapeXmlStr (optField td.billingAddress.company) ++
  "</company>\n      <address>".data
  ++ escapeXmlStr (optField td.billingAddress.address) ++
  "</address>\n      <city>".data
  ++ escapeXmlStr (optField td.billingAddress.city) ++
  "</city>\n      <state>".data
  ++ escapeXmlStr (optField td.billingAddress.state) ++
  "</state>\n      <zip>".data
  ++ escapeXmlStr (optField td.billingAddress.zip) ++
  "</zip>\n      <country>".data
  ++ escapeXmlStr (optField td.billingAddress.country) ++
  "</country>\n    </billTo>\n  </transactionRequest>\n</createTransactionRequest>".data

/-! ### authorizeNet.js — `parseXmlResponse`

The source matches JavaScript regular expressions of three shapes:
`/<tag>(.*?)<\/tag>/` (a lazy dot that excludes line terminators),
`/<tag[^>]*>([\s\S]*?)<\/tag>/`, and a global `matchAll` of
`/<entry>([\s\S]*?)<\/entry>/g`.  They are modelled by literal scanning
functions with exactly those semantics: try each start position from the
left; at a start, match the opening literal, then lazily extend the capture
to the first closing literal (failing on an excluded character). -/

/-- Characters the JS regex `.` does not match. -/
def lineOk (c : Char) : Bool := !(c = '\n' || c = '\r' || c.toNat = 8232 || c.toNat = 8233)

/-- Lazy capture up to the first occurrence of `close`, each captured
character constrained by `keep`; returns the capture and the input past the
closing literal. -/
def scanLazy (close : List Char) (keep : Char → Bool) : List Char → Option (List Char × List Char)
  | [] => none
  | c :: rest =>
    if leadsWith close (c :: rest) then some ([], (c :: rest).drop close.length)
    else if keep c then
      match scanLazy close keep rest with
      | some p => some (c :: p.1, p.2)
      | none => none
    else none

/-- Left-to-right scan: the first position where `attempt` succeeds. -/
def findFirst {α : Type} (attempt : List Char → Option α) : List Char → Option α
  | [] => none
  | c :: rest =>
    match attempt (c :: rest) with
    | some r => some r
    | none => findFirst attempt rest

/-- One attempt of `/<tag>(.*?)<\/tag>/` at the current position. -/
def tagAttempt (openT closeT : List Char) (keep : Char → Bool) (s : List Char) :
    Option (List Char × List Char) :=
  if leadsWith openT s then scanLazy closeT keep (s.drop openT.length) else none

/-- `str.match(/<tag>(.*?)<\/tag>/)`-style first match: capture and rest. -/
def matchTagFirst (openT closeT : List Char) (keep : Char → Bool) (s : List Char) :
    Option (List Char × List Char) :=
  findFirst (tagAttempt openT closeT keep) s

/-- Consume `[^>]*>`: everything up to and including the first `>`. -/
def skipToGt : List Char → Option (List Char)
  | [] => none
  | c :: rest => if c = '>' then some rest else skipToGt rest

/-- One attempt of `/<tag[^>]*>([\s\S]*?)<\/tag>/` at the current position. -/
def sectionAttempt (tagName : List Char) (s : List Char) : Option (List Char × List Char) :=
  if leadsWith ('<' :: tagName) s then
    match skipToGt (s.drop (tagName.length + 1)) with
    | some afterGt => scanLazy ('<' :: '/' :: tagName ++ ['>']) (fun _ => true) afterGt
    | none => none
  else none

/-- First match of the section regex, capture only. -/
def matchSection (tagName : List Char) (s : List Char) : Option (List Char) :=
  (findFirst (sectionAttempt tagName) s).map Prod.fst

/-- `str.matchAll(/<entry>([\s\S]*?)<\/entry>/g)`: successive non-overlapping
matches, resuming after each match (fuelled by the input length). -/
def matchAllTag (openT closeT : List Char) : Nat → List Char → List (List Char)
  | 0, _ => []
  | fuel + 1, s =>
    match matchTagFirst openT closeT (fun _ => true) s with
    | some p => p.1 :: matchAllTag openT closeT fuel p.2
    | none => []

structure TransErrorEntry where
  errorCode : List Char
  errorText : List Char
deriving DecidableEq, Repr

structure MsgEntry where
  code : List Char
  text : List Char
deriving DecidableEq, Repr

structure TransactionResponsePart where
  responseCode : Option (List Char)
  authCode : Option (List Char)
  transId : Option (List Char)
  errors : Option (List TransErrorEntry)
deriving DecidableEq, Repr

structure MessagesPart where
  resultCode : Option (List Char)
  message : Option (List MsgEntry)
deriving DecidableEq, Repr

structure ParsedResponse where
  transactionResponse : TransactionResponsePart
  messages : MessagesPart
deriving DecidableEq, Repr

/-- `parseXmlResponse(xmlString)`: best-effort field extraction; a field whose
pattern does not match stays absent, error entries are collected in document
order, and `errors`/`message` are only set when at least one entry was found. -/
def parseXmlResponse (xmlString : List Char) : ParsedResponse :=
  let trans : TransactionResponsePart :=
    match matchSection "transactionResponse".data xmlString with
    | some transXml =>
      let errList := (matchAllTag "<error>".data "</error>".data (transXml.length + 1) transXml).map
        (fun errorXml =>
          { errorCode := ((matchTagFirst "<errorCode>".data "</errorCode>".data lineOk errorXml).map Prod.fst).getD []
            errorText := ((matchTagFirst "<errorText>".data "</errorText>".data lineOk errorXml).map Prod.fst).getD [] })
      { responseCode := (matchTagFirst "<responseCode>".data "</responseCode>".data lineOk transXml).map Prod.fst
        authCode := (matchTagFirst "<authCode>".data "</authCode>".data lineOk transXml).map Prod.fst
        transId := (matchTagFirst "<transId>".data "</transId>".data lineOk transXml).map Prod.fst
        errors := if errList.length > 0 then some errList else none }
    | none => { responseCode := none, authCode := none, transId := none, errors := none }
  let msgs : MessagesPart :=
    match matchSection "messages".data xmlString with
    | some messagesXml =>
      let msgList := (matchAllTag "<message>".data "</message>".data (messagesXml.length + 1) messagesXml).map
        (fun messageXml =>
          { code := ((matchTagFirst "<code>".data "</code>".data lineOk messageXml).map Prod.fst).getD []
            text := ((matchTagFirst "<text>".data "</text>".data lineOk messageXml).map Prod.fst).getD [] })
      { resultCode := (matchTagFirst "<resultCode>".data "</resultCode>".data lineOk messagesXml).map Prod.fst
        message := if msgList.length > 0 then some msgList else none }
    | none => { resultCode := none, message := none }
  { transactionResponse := trans, messages := msgs }

/-! ### authorizeNet.js — outcome classification (lines 260–300) -/

/-- A gateway error as it appears in the combined `allErrors` list: envelope
entries have `code`/`text` keys, transaction entries `errorCode`/`errorText`. -/
inductive GatewayError where
  | msgErr (code text : List Char)
  | transErr (errorCode errorText : List Char)
deriving DecidableEq, Repr

/-- `[...errorMessages, ...transactionErrors]`: envelope-level entries first,
then transaction-level entries, absent lists defaulting to `[]`. -/
def allErrorsOf (p : ParsedResponse) : List GatewayError :=
  (p.messages.message.getD []).map (fun m => .msgErr m.code m.text) ++
    (p.transactionResponse.errors.getD []).map (fun e => .transErr e.errorCode e.errorText)

/-- The success result object returned by `processApplePayTransaction`. -/
structure TxSuccess where
  success : Bool
  transactionId : Option (List Char)
  authCode : Option (List Char)
  responseCode : Option (List Char)
  amount : ℚ
  details : TransactionResponsePart
deriving DecidableEq, Repr

inductive NetFail where
  | netError (message : List Char)
  | timeout
deriving DecidableEq, Repr

/-- The failures `processApplePayTransaction` can raise. -/
inductive TxFailure where
  | protocolError (resultCode : Option (List Char)) (errors : List GatewayError)
      (messageErrors : List MsgEntry) (transactionErrors : List TransErrorEntry)
  | declined (responseCode : Option (List Char)) (errors : List TransErrorEntry)
  | missingPaymentData
  | tokenParseError
  | gatewayNetworkFailure (f : NetFail)
deriving DecidableEq, Repr

/-- The envelope-then-transaction outcome checks on a parsed response:
`resultCode !== 'Ok'` raises the envelope failure carrying the concatenated
error list, then `responseCode !== '1'` raises the declined failure, else the
success result is returned. -/
def classifyParsedResponse (amount : ℚ) (p : ParsedResponse) : Except TxFailure TxSuccess :=
  if p.messages.resultCode ≠ some "Ok".data then
    .error (.protocolError p.messages.resultCode (allErrorsOf p)
      (p.messages.message.getD []) (p.transactionResponse.errors.getD []))
  else if p.transactionResponse.responseCode ≠ some "1".data then
    .error (.declined p.transactionResponse.responseCode (p.transactionResponse.errors.getD []))
  else
    .ok { success := true, transactionId := p.transactionResponse.transId
          authCode := p.transactionResponse.authCode
          responseCode := p.transactionResponse.responseCode
          amount := amount, details := p.transactionResponse }

/-! ### authorizeNet.js — `processApplePayTransaction` request construction -/

structure OrderInfo where
  orderId : Option (List Char)
  invoiceNumber : Option (List Char)
  description : Option (List Char)
  email : Option (List Char)
  billingAddress : Option BillingAddress

def strTruthyOpt : Option (List Char) → Bool
  | none => false
  | some s => !(s = [])

/-- `String.prototype.trim` (whitespace at both ends). -/
def trimWs (s : List Char) : List Char :=
  ((s.dropWhile (fun c => isJsonWs c)).reverse.dropWhile (fun c => isJsonWs c)).reverse

/-- `orderInfo.invoiceNumber ? orderInfo.invoiceNumber.slice(0, 20)
: ('INV-' + Date.now()).slice(0, 20)`. -/
def mkInvoiceNumber (invoiceNumber : Option (List Char)) (now : Nat) : List Char :=
  if strTruthyOpt invoiceNumber then (invoiceNumber.getD []).take 20
  else ("INV-".data ++ natToChars now).take 20

/-- `orderInfo.orderId || ('ORDER-' + Date.now())` — note: no truncation. -/
def mkRefId (orderId : Option (List Char)) (now : Nat) : List Char :=
  if strTruthyOpt orderId then orderId.getD [] else "ORDER-".data ++ natToChars now

/-- Customer id derivation: empty unless `userId` is truthy with nonblank
trim; ids longer than 20 characters keep their first 20. -/
def mkCustomerId (userId : Option (List Char)) : List Char :=
  match userId with
  | some s =>
    if !(s = []) && !(trimWs s = []) then (if s.length ≤ 20 then s else s.take 20) else []
  | none => []

/-- `amount.toFixed(2)`: two-decimal fixed formatting with rounding. -/
def toFixed2 (q : ℚ) : List Char :=
  let cents : ℤ := Rat.floor (|q| * 100 + 1 / 2)
  (if q < 0 ∧ cents ≠ 0 then ['-'] else []) ++
    natToChars (cents.toNat / 100) ++ '.' ::
      [Char.ofNat (48 + cents.toNat % 100 / 10), Char.ofNat (48 + cents.toNat % 100 % 10)]

/-- `Buffer.from(JSON.stringify(paymentData), 'utf8').toString('base64')`:
the transport `dataValue` computed from the whole `paymentData` object. -/
def dataValueOf (pd : Json) : List Char := b64encode (utf8Encode (stringifyVal pd))

structure GatewayConfig where
  apiLoginId : List Char
  transactionKey : List Char

/-- The gateway leg of one call: either a network-level failure or the XML
body of the gateway's reply. -/
structure GatewayEnv where
  gatewayResponse : Except NetFail (List Char)

inductive TxEffect where
  | gatewayPost (xml : List Char)
deriving DecidableEq, Repr

def emptyBilling : BillingAddress :=
  { firstName := none, lastName := none, company := none, address := none
    city := none, state := none, zip := none, country := none }

/-- `typeof paymentToken === 'string' ? JSON.parse(paymentToken) : paymentToken`. -/
def resolveToken : Json → Option Json
  | .str s => jsonParse s
  | t => some t

/-- `processApplePayTransaction` up to and including the outcome checks,
with the network call recorded as an effect. A string token is `JSON.parse`d;
a token without a truthy `paymentData` raises before any network call. -/
def processApplePayTransaction (cfg : GatewayConfig) (env : GatewayEnv)
    (paymentToken : Json) (amount : ℚ) (userId : Option (List Char))
    (orderInfo : OrderInfo) (now : Nat) :
    Except TxFailure TxSuccess × List TxEffect :=
  match resolveToken paymentToken with
  | none => (.error .tokenParseError, [])
  | some applePayToken =>
    let paymentData := objGet applePayToken "paymentData".data
    if !(jsTruthy paymentData) then (.error .missingPaymentData, [])
    else
      let transactionData : TransactionData :=
        { refId := mkRefId orderInfo.orderId now
          amount := toFixed2 amount
          dataDescriptor := "COMMON.APPLE.INAPP.PAYMENT".data
          dataValue := dataValueOf (paymentData.getD .null)
          invoiceNumber := mkInvoiceNumber orderInfo.invoiceNumber now
          description := jsOrStr (orderInfo.description.getD []) "Apple Pay Payment".data
          customerId := mkCustomerId userId
          email := jsOrStr (orderInfo.email.getD []) []
          billingAddress := orderInfo.billingAddress.getD emptyBilling }
      let xmlRequest := createXmlRequest cfg.apiLoginId cfg.transactionKey transactionData
      match env.gatewayResponse with
      | .error nf => (.error (.gatewayNetworkFailure nf), [.gatewayPost xmlRequest])
      | .ok body => (classifyParsedResponse amount (parseXmlResponse body), [.gatewayPost xmlRequest])

/-! ### Router — POST /api/applepay/process input validation -/

structure FieldError where
  field : List Char
  constraint : List Char
  message : List Char
deriving DecidableEq, Repr

def isNumberVal : Option Json → Bool
  | some (.num _) => true
  | _ => false

def isStringVal : Option Json → Bool
  | some (.str _) => true
  | _ => false

def numNonPositive : Option Json → Bool
  | some (.num q) => q ≤ 0
  | _ => false

def strValOf : Option Json → List Char
  | some (.str s) => s
  | _ => []

/-- The three route-level checks, in source order, each pushing one entry. -/
def validateProcessInput (paymentToken amount userId : Option Json) : List FieldError :=
  (if !(jsTruthy paymentToken) then
    [{ field := "paymentToken".data, constraint := "required".data
       message := "paymentToken is required".data }] else []) ++
  (if !(jsTruthy amount) || !(isNumberVal amount) || numNonPositive amount then
    [{ field := "amount".data, constraint := "invalid".data
       message := "amount must be a positive number".data }] else []) ++
  (if !(jsTruthy userId) || !(isStringVal userId) || trimWs (strValOf userId) = [] then
    [{ field := "userId".data, constraint := "required".data
       message := "userId is required".data }] else [])

inductive ProcessOutcome where
  | ok (r : TxSuccess)
  | validationFailure (fields : List FieldError)
  | txFailure (f : TxFailure)
deriving DecidableEq, Repr

/-- The POST /process handler: structured validation first (no effects); only
then the translator runs. The final match arm is unreachable once validation
has passed, since passing guarantees the three shapes. -/
def processHandler (cfg : GatewayConfig) (env : GatewayEnv)
    (paymentToken amount userId : Option Json) (orderInfo : OrderInfo) (now : Nat) :
    ProcessOutcome × List TxEffect :=
  let validationErrors := validateProcessInput paymentToken amount userId
  if validationErrors.length > 0 then (.validationFailure validationErrors, [])
  else
    match paymentToken, amount, userId with
    | some tok, some (.num q), some (.str uid) =>
      let r := processApplePayTransaction cfg env tok q (some uid) orderInfo now
      (match r.1 with
       | .ok s => .ok s
       | .error f => .txFailure f, r.2)
    | _, _, _ => (.validationFailure [], [])

/-! ### Router — POST /api/applepay/validate (Merchant Validation Relay) -/

inductive RelayEffect where
  | readFile (path : List Char)
  | httpsPost (url : List Char) (body : List Char)
deriving DecidableEq, Repr

structure UpstreamResponse where
  statusCode : Nat
  statusMessage : List Char
  body : List Char
deriving DecidableEq, Repr

/-- The environment one /validate call runs against: the two credential file
reads and the upstream mutual-TLS POST. -/
structure RelayEnv where
  certRead : Except (List Char) (List Char)
  keyRead : Except (List Char) (List Char)
  upstream : Except NetFail UpstreamResponse

structure RelayConfig where
  appleMerchantId : List Char
  appleMerchantCertPath : List Char
  appleMerchantKeyPath : List Char

/-- The distinct outcome kinds of the /validate handler. -/
inductive RelayOutcome where
  | ok (merchantSession : Json)
  | validationError (field constraint : List Char)
  | certificateError (message path : List Char)
  | statusError (statusCode : Nat) (statusMessage : List Char) (response : List Char)
  | parseError (response : List Char)
  | networkError (message : List Char)
  | timeoutError

def isRelayOk : RelayOutcome → Bool
  | .ok _ => true
  | _ => false

/-- `JSON.stringify({merchantIdentifier, domainName, displayName})`. -/
def mkValidationRequestBody (merchantIdentifier domainName : List Char) : List Char :=
  stringifyVal (.obj [("merchantIdentifier".data, .str merchantIdentifier),
                      ("domainName".data, .str domainName),
                      ("displayName".data, .str "Apple Pay POC".data)])

/-- The POST /validate handler with its effects recorded in order: the falsy
URL check, the two certificate reads, the upstream POST, then strictly
`statusCode === 200` plus `JSON.parse` for success. -/
def validateHandler (cfg : RelayConfig) (env : RelayEnv)
    (validationURL : Option (List Char)) (hostname : List Char) :
    RelayOutcome × List RelayEffect :=
  if !(strTruthyOpt validationURL) then
    (.validationError "validationURL".data "required".data, [])
  else
    match env.certRead with
    | .error _ =>
      (.certificateError "Merchant identity certificate not found".data cfg.appleMerchantCertPath,
       [.readFile cfg.appleMerchantCertPath])
    | .ok _ =>
      match env.keyRead with
      | .error _ =>
        (.certificateError "Merchant private key not found".data cfg.appleMerchantKeyPath,
         [.readFile cfg.appleMerchantCertPath, .readFile cfg.appleMerchantKeyPath])
      | .ok _ =>
        let requestData := mkValidationRequestBody cfg.appleMerchantId hostname
        let effects := [RelayEffect.readFile cfg.appleMerchantCertPath,
                        RelayEffect.readFile cfg.appleMerchantKeyPath,
                        RelayEffect.httpsPost (validationURL.getD []) requestData]
        match env.upstream with
        | .error (.netError m) => (.networkError m, effects)
        | .error .timeout => (.timeoutError, effects)
        | .ok resp =>
          if resp.statusCode = 200 then
            match jsonParse resp.body with
            | some session => (.ok session, effects)
            | none => (.parseError resp.body, effects)
          else (.statusError resp.statusCode resp.statusMessage resp.body, effects)

/-! ### Predicates used to state the verification results -/

/-- Per-character view of the five sequential `escapeXml` replaces: the chain
of global replaces is proved equal to this character-by-character map. -/
def escChar (c : Char) : List Char :=
  if c = '&' then "&amp;".data
  else if c = '<' then "&lt;".data
  else if c = '>' then "&gt;".data
  else if c = '"' then "&quot;".data
  else if c = '\'' then "&apos;".data
  else [c]

/-- After an `&`, one of the five entity tails must follow. -/
def entityFollows (l : List Char) : Bool :=
  leadsWith "amp;".data l || leadsWith "lt;".data l || leadsWith "gt;".data l ||
    leadsWith "quot;".data l || leadsWith "apos;".data l

/-- Every `&` in the string starts one of the five XML entities. -/
def ampOk : List Char → Bool
  | [] => true
  | c :: rest => (if c = '&' then entityFollows rest else true) && ampOk rest

/-- Single-byte (ASCII) characters. -/
def allAscii (l : List Char) : Bool := l.all fun c => c.toNat < 128

def isObjVal : Json → Bool
  | .obj _ => true
  | _ => false

/-- A gateway reply with two envelope-level and two transaction-level error
entries, used to exhibit document-order extraction. -/
def sampleGatewayXml : List Char :=
  ("<?xml version=\"1.0\"?><createTransactionResponse><messages><resultCode>Error</resultCode>"
    ++ "<message><code>E00027</code><text>Bad.</text></message>"
    ++ "<message><code>E00001</code><text>Worse.</text></message></messages>"
    ++ "<transactionResponse><responseCode>3</responseCode>"
    ++ "<error><errorCode>8</errorCode><errorText>Expired</errorText></error>"
    ++ "<error><errorCode>9</errorCode><errorText>Other</errorText></error>"
    ++ "</transactionResponse></createTransactionResponse>").data

/-! ## Verification results -/

/-- C10: for every falsy input to `escapeXml` — the empty string, `null`,
`undefined`, and the number `0` — the result is the empty string, so a falsy
field is emitted as an empty XML element rather than an error or the digit 0. -/
theorem escapeXml_falsy_empty :
    escapeXml none = [] ∧ escapeXml (some .null) = [] ∧
    escapeXml (some (.str [])) = [] ∧ escapeXml (some (.num 0)) = [] :=
  ⟨rfl, rfl, rfl, by decide⟩

/-- C1: whenever the envelope-level result code of a parsed gateway response
is not "Ok", the outcome checks of `processApplePayTransaction` never return
the success result, whatever the transaction-level response code; the raised
protocol failure carries exactly the envelope-level errors followed by the
transaction-level errors. -/
theorem envelope_failure_never_success (amount : ℚ) (p : ParsedResponse)
    (h : p.messages.resultCode ≠ some "Ok".data) :
    (∀ r : TxSuccess, classifyParsedResponse amount p ≠ .ok r) ∧
    classifyParsedResponse amount p =
      .error (.protocolError p.messages.resultCode
        ((p.messages.message.getD []).map (fun m => GatewayError.msgErr m.code m.text) ++
          (p.transactionResponse.errors.getD []).map
            (fun e => GatewayError.transErr e.errorCode e.errorText))
        (p.messages.message.getD []) (p.transactionResponse.errors.getD [])) := by
  unfold classifyParsedResponse allErrorsOf
  rw [if_pos h]
  exact ⟨fun r hc => Except.noConfusion hc, rfl⟩

/-- Witness for C1 at a concrete parsed response. -/
theorem envelope_failure_never_success_witness :
    (some ['E'] : Option (List Char)) ≠ some "Ok".data ∧
    classifyParsedResponse 10
      { transactionResponse :=
          { responseCode := some ['1'], authCode := none, transId := none,
            errors := some [{ errorCode := ['8'], errorText := ['x'] }] },
        messages :=
          { resultCode := some ['E'], message := some [{ code := ['a'], text := ['b'] }] } } =
      .error (.protocolError (some ['E'])
        [.msgErr ['a'] ['b'], .transErr ['8'] ['x']]
        [{ code := ['a'], text := ['b'] }] [{ errorCode := ['8'], errorText := ['x'] }]) :=
  ⟨by decide, (envelope_failure_never_success 10 _ (by decide)).2⟩

/-- C2: with envelope result code "Ok" but transaction response code ≠ "1",
the outcome is the declined failure carrying the response code and the
transaction-level error list — a constructor distinct from the envelope
protocol failure; on the stub response with `responseCode = 2` and the single
error `(2, Declined)` the declined error list is exactly that pair. -/
theorem ok_envelope_decline (amount : ℚ) (p : ParsedResponse)
    (hOk : p.messages.resultCode = some "Ok".data)
    (h1 : p.transactionResponse.responseCode ≠ some "1".data) :
    classifyParsedResponse amount p =
      .error (.declined p.transactionResponse.responseCode
        (p.transactionResponse.errors.getD [])) ∧
    (∀ rc errs rc2 errs2 ms ts,
      TxFailure.declined rc errs ≠ TxFailure.protocolError rc2 errs2 ms ts) ∧
    classifyParsedResponse 10
      { transactionResponse :=
          { responseCode := some "2".data, authCode := none, transId := none,
            errors := some [{ errorCode := "2".data, errorText := "Declined".data }] },
        messages := { resultCode := some "Ok".data, message := none } } =
      .error (.declined (some "2".data)
        [{ errorCode := "2".data, errorText := "Declined".data }]) := by
  refine ⟨?_, ?_, by rfl⟩
  · unfold classifyParsedResponse
    rw [if_neg (fun hne => hne hOk), if_pos h1]
  · intro rc errs rc2 errs2 ms ts hc
    exact TxFailure.noConfusion hc

/-- Witness for C2 at the stub response of the claim. -/
theorem ok_envelope_decline_witness :
    ({ transactionResponse :=
         { responseCode := some "2".data, authCode := none, transId := none,
           errors := some [{ errorCode := "2".data, errorText := "Declined".data }] },
       messages := { resultCode := some "Ok".data, message := none } } :
        ParsedResponse).messages.resultCode = some "Ok".data ∧
    classifyParsedResponse 10
      { transactionResponse :=
          { responseCode := some "2".data, authCode := none, transId := none,
            errors := some [{ errorCode := "2".data, errorText := "Declined".data }] },
        messages := { resultCode := some "Ok".data, message := none } } =
      .error (.declined (some "2".data)
        [{ errorCode := "2".data, errorText := "Declined".data }]) :=
  ⟨by decide, (ok_envelope_decline 10 _ (by decide) (by decide)).1⟩

/-- C6: a /validate request whose `validationURL` is absent or the empty
string yields the client-fault validation error (field and constraint detail)
with an empty effect list — no certificate read and no outbound call. -/
theorem validate_missing_url_no_effects (cfg : RelayConfig) (env : RelayEnv)
    (validationURL : Option (List Char)) (hostname : List Char)
    (h : validationURL = none ∨ validationURL = some []) :
    validateHandler cfg env validationURL hostname =
      (.validationError "validationURL".data "required".data, []) := by
  rcases h with h | h <;> subst h <;> rfl

/-- Witness for C6: both the absent and the empty URL, concretely. -/
theorem validate_missing_url_no_effects_witness :
    ((none : Option (List Char)) = none ∨ (none : Option (List Char)) = some []) ∧
    validateHandler
      { appleMerchantId := "m".data, appleMerchantCertPath := "cert.pem".data,
        appleMerchantKeyPath := "key.pem".data }
      { certRead := .ok [], keyRead := .ok [],
        upstream := .ok { statusCode := 200, statusMessage := [], body := "{}".data } }
      none "example.org".data =
      (.validationError "validationURL".data "required".data, []) ∧
    validateHandler
      { appleMerchantId := "m".data, appleMerchantCertPath := "cert.pem".data,
        appleMerchantKeyPath := "key.pem".data }
      { certRead := .ok [], keyRead := .ok [],
        upstream := .ok { statusCode := 200, statusMessage := [], body := "{}".data } }
      (some []) "example.org".data =
      (.validationError "validationURL".data "required".data, []) :=
  ⟨Or.inl rfl, validate_missing_url_no_effects _ _ _ _ (Or.inl rfl),
    validate_missing_url_no_effects _ _ _ _ (Or.inr rfl)⟩

/-- C4 counterexample: a 21-character `orderInfo.orderId` is placed into the
gateway `refId` unchanged — the reference id is not truncated to 20
characters, contrary to the claim. -/
theorem refId_not_truncated_cex :
    mkRefId (some "ABCDEFGHIJKLMNOPQRSTU".data) 0 = "ABCDEFGHIJKLMNOPQRSTU".data ∧
    (mkRefId (some "ABCDEFGHIJKLMNOPQRSTU".data) 0).length = 21 := by
  exact ⟨by decide, by decide⟩

/-- C4 (amended): the invoice number is truncated to exactly its first 20
characters and never exceeds 20, with the timestamp fallback when absent;
the caller-supplied reference id is passed through unmodified (untruncated). -/
theorem invoice_truncated_refId_passthrough (inv oid : List Char) (now : Nat)
    (hinv : 20 < inv.length) (hoid : oid ≠ []) :
    mkInvoiceNumber (some inv) now = inv.take 20 ∧
    (mkInvoiceNumber (some inv) now).length = 20 ∧
    (mkInvoiceNumber none now).length ≤ 20 ∧
    mkInvoiceNumber none now = ("INV-".data ++ natToChars now).take 20 ∧
    mkRefId (some oid) now = oid := by
  have hne : inv ≠ [] := by
    intro h
    rw [h] at hinv
    simp at hinv
  have h1 : mkInvoiceNumber (some inv) now = inv.take 20 := by
    simp [mkInvoiceNumber, strTruthyOpt, hne]
  have h4 : mkInvoiceNumber none now = ("INV-".data ++ natToChars now).take 20 := by
    simp [mkInvoiceNumber, strTruthyOpt]
  refine ⟨h1, ?_, ?_, h4, ?_⟩
  · rw [h1, List.length_take]
    omega
  · rw [h4, List.length_take]
    omega
  · simp [mkRefId, strTruthyOpt, hoid]

/-- Witness for C4 (amended) at a 21-character invoice number and order id
"X". -/
theorem invoice_truncated_refId_passthrough_witness :
    (mkInvoiceNumber (some "ABCDEFGHIJKLMNOPQRSTU".data) 7).length = 20 ∧
    mkRefId (some "X".data) 7 = "X".data :=
  ⟨(invoice_truncated_refId_passthrough "ABCDEFGHIJKLMNOPQRSTU".data "X".data 7
      (by decide) (by decide)).2.1,
   (invoice_truncated_refId_passthrough "ABCDEFGHIJKLMNOPQRSTU".data "X".data 7
      (by decide) (by decide)).2.2.2.2⟩

/-- C7: provided the URL is truthy, both credential files load, and the
upstream responded at all, the relay reports success exactly when the
upstream status is 200 with a JSON-parseable body; the parsed body is the
merchant session, unmodified; a non-200 status and a parse failure are
distinct failure kinds carrying the raw status/response. -/
theorem validate_success_iff_200_json (cfg : RelayConfig) (env : RelayEnv)
    (url hostname cert key : List Char) (resp : UpstreamResponse)
    (hurl : url ≠ [])
    (hc : env.certRead = .ok cert) (hk : env.keyRead = .ok key)
    (hu : env.upstream = .ok resp) :
    (isRelayOk (validateHandler cfg env (some url) hostname).1 = true ↔
      resp.statusCode = 200 ∧ (jsonParse resp.body).isSome = true) ∧
    (∀ j, (validateHandler cfg env (some url) hostname).1 = .ok j →
      jsonParse resp.body = some j) ∧
    (resp.statusCode ≠ 200 →
      (validateHandler cfg env (some url) hostname).1 =
        .statusError resp.statusCode resp.statusMessage resp.body) ∧
    (resp.statusCode = 200 → jsonParse resp.body = none →
      (validateHandler cfg env (some url) hostname).1 = .parseError resp.body) := by
  have htr : strTruthyOpt (some url) = true := by simp [strTruthyOpt, hurl]
  simp only [validateHandler, htr, Bool.not_true, Bool.false_eq_true, if_false, hc, hk, hu]
  by_cases h200 : resp.statusCode = 200
  · cases hj : jsonParse resp.body with
    | some j => simp [h200, hj, isRelayOk]
    | none => simp [h200, hj, isRelayOk]
  · simp [h200, isRelayOk]

/-- Witness for C7: a 200 reply with body `{}` yields the parsed empty
object as the merchant session. -/
theorem validate_success_iff_200_json_witness :
    ("https://a".data ≠ ([] : List Char)) ∧
    (isRelayOk (validateHandler
      { appleMerchantId := "m".data, appleMerchantCertPath := "c.pem".data,
        appleMerchantKeyPath := "k.pem".data }
      { certRead := .ok "C".data, keyRead := .ok "K".data,
        upstream := .ok { statusCode := 200, statusMessage := "OK".data, body := "{}".data } }
      (some "https://a".data) "h.example".data).1 = true ↔
      (200 = 200 ∧ (jsonParse "{}".data).isSome = true)) :=
  ⟨by decide,
    (validate_success_iff_200_json _ _ "https://a".data "h.example".data "C".data "K".data
      { statusCode := 200, statusMessage := "OK".data, body := "{}".data }
      (by decide) rfl rfl rfl).1⟩

/-- C8 counterexample: with a present token object lacking `paymentData`, an
invalid amount, and a valid user id, the structured validation failure lists
only `amount` — the violated token-contains-paymentData requirement is not
collected into the field list. -/
theorem process_validation_cex :
    validateProcessInput (some (.obj [("foo".data, .str "bar".data)]))
        (some (.num (-5))) (some (.str "u1".data)) =
      [{ field := "amount".data, constraint := "invalid".data,
         message := "amount must be a positive number".data }] ∧
    objGet (.obj [("foo".data, .str "bar".data)]) "paymentData".data = none :=
  ⟨rfl, rfl⟩

/-- C8 (amended): the route-level validation runs before any network call and
lists every violated field among token presence, amount positivity, and
userId nonemptiness; a present token whose `paymentData` object is missing is
rejected by the translator as its own single failure, also before any network
call (empty effect list in both cases). -/
theorem process_validation_amended (cfg : GatewayConfig) (env : GatewayEnv)
    (paymentToken amount userId : Option Json) (orderInfo : OrderInfo) (now : Nat)
    (tok t2 : Json) :
    (jsTruthy paymentToken = false →
      { field := "paymentToken".data, constraint := "required".data,
        message := "paymentToken is required".data } ∈
          validateProcessInput paymentToken amount userId) ∧
    ((!(jsTruthy amount) || !(isNumberVal amount) || numNonPositive amount) = true →
      { field := "amount".data, constraint := "invalid".data,
        message := "amount must be a positive number".data } ∈
          validateProcessInput paymentToken amount userId) ∧
    ((!(jsTruthy userId) || !(isStringVal userId) || (trimWs (strValOf userId) = [])) = true →
      { field := "userId".data, constraint := "required".data,
        message := "userId is required".data } ∈
          validateProcessInput paymentToken amount userId) ∧
    (validateProcessInput paymentToken amount userId ≠ [] →
      processHandler cfg env paymentToken amount userId orderInfo now =
        (.validationFailure (validateProcessInput paymentToken amount userId), [])) ∧
    (paymentToken = some tok → resolveToken tok = some t2 →
      validateProcessInput paymentToken amount userId = [] →
      jsTruthy (objGet t2 "paymentData".data) = false →
      processHandler cfg env paymentToken amount userId orderInfo now =
        (.txFailure .missingPaymentData, [])) := by
  refine ⟨?_, ?_, ?_, ?_, ?_⟩
  · intro h
    simp [validateProcessInput, h]
  · intro h
    simp [validateProcessInput, h]
  · intro h
    simp [validateProcessInput, h]
  · intro h
    have hpos : 0 < (validateProcessInput paymentToken amount userId).length :=
      List.length_pos.mpr h
    simp only [processHandler]
    rw [if_pos hpos]
  · intro ht hres hv hpd
    subst ht
    cases htok : jsTruthy (some tok) with
    | false => simp [validateProcessInput, htok] at hv
    | true =>
      cases hamt : (!(jsTruthy amount) || !(isNumberVal amount) || numNonPositive amount) with
      | true => simp [validateProcessInput, htok, hamt] at hv
      | false =>
        cases huid : (!(jsTruthy userId) || !(isStringVal userId) ||
            (trimWs (strValOf userId) = [])) with
        | true => simp [validateProcessInput, htok, hamt, huid] at hv
        | false =>
          have hnum : isNumberVal amount = true := by
            rcases Bool.or_eq_false_iff.mp hamt with ⟨h1, -⟩
            rcases Bool.or_eq_false_iff.mp h1 with ⟨-, h2⟩
            simpa using h2
          have hstr : isStringVal userId = true := by
            rcases Bool.or_eq_false_iff.mp huid with ⟨h1, -⟩
            rcases Bool.or_eq_false_iff.mp h1 with ⟨-, h2⟩
            simpa using h2
          have hamount : ∃ q, amount = some (Json.num q) := by
            cases amount with
            | none => exact absurd hnum (by simp [isNumberVal])
            | some v =>
              cases v with
              | num q => exact ⟨q, rfl⟩
              | null => exact absurd hnum (by simp [isNumberVal])
              | bool b => exact absurd hnum (by simp [isNumberVal])
              | str s2 => exact absurd hnum (by simp [isNumberVal])
              | arr es => exact absurd hnum (by simp [isNumberVal])
              | obj fs => exact absurd hnum (by simp [isNumberVal])
          have huser : ∃ u, userId = some (Json.str u) := by
            cases userId with
            | none => exact absurd hstr (by simp [isStringVal])
            | some v =>
              cases v with
              | str u => exact ⟨u, rfl⟩
              | null => exact absurd hstr (by simp [isStringVal])
              | bool b => exact absurd hstr (by simp [isStringVal])
              | num q => exact absurd hstr (by simp [isStringVal])
              | arr es => exact absurd hstr (by simp [isStringVal])
              | obj fs => exact absurd hstr (by simp [isStringVal])
          obtain ⟨q, rfl⟩ := hamount
          obtain ⟨uid, rfl⟩ := huser
          simp only [processHandler, hv, List.length_nil, gt_iff_lt, Nat.lt_irrefl,
            if_false, processApplePayTransaction, hres, hpd, Bool.not_false, if_true]

/-- Witness for C8 (amended): an invalid amount is listed, and a token
without `paymentData` is rejected with no gateway call. -/
theorem process_validation_amended_witness :
    ({ field := "amount".data, constraint := "invalid".data,
       message := "amount must be a positive number".data } ∈
        validateProcessInput none (some (.num 0)) (some (.str " ".data))) ∧
    processHandler { apiLoginId := "L".data, transactionKey := "K".data }
        { gatewayResponse := .ok "<x/>".data }
        (some (.obj [("foo".data, .str "bar".data)])) (some (.num 5))
        (some (.str "u".data)) ⟨none, none, none, none, none⟩ 0 =
      (.txFailure .missingPaymentData, []) :=
  ⟨(process_validation_amended { apiLoginId := "L".data, transactionKey := "K".data }
      { gatewayResponse := .ok "<x/>".data } none (some (.num 0)) (some (.str " ".data))
      ⟨none, none, none, none, none⟩ 0 .null .null).2.1 (by decide),
   (process_validation_amended { apiLoginId := "L".data, transactionKey := "K".data }
      { gatewayResponse := .ok "<x/>".data }
      (some (.obj [("foo".data, .str "bar".data)])) (some (.num 5)) (some (.str "u".data))
      ⟨none, none, none, none, none⟩ 0 (.obj [("foo".data, .str "bar".data)])
      (.obj [("foo".data, .str "bar".data)])).2.2.2.2 rfl rfl (by decide) rfl⟩

/-! ### Analysis of `escapeXml` (supporting C5) -/

theorem replaceAll_append (c : Char) (rep : List Char) (a b : List Char) :
    replaceAll c rep (a ++ b) = replaceAll c rep a ++ replaceAll c rep b := by
  induction a with
  | nil => rfl
  | cons x xs ih => simp [replaceAll, ih]

theorem escapeChars_append (a b : List Char) :
    escapeChars (a ++ b) = escapeChars a ++ escapeChars b := by
  unfold escapeChars
  rw [replaceAll_append, replaceAll_append, replaceAll_append, replaceAll_append,
    replaceAll_append]

theorem escapeChars_single (x : Char) : escapeChars [x] = escChar x := by
  by_cases h1 : x = '&'
  · subst h1; rfl
  by_cases h2 : x = '<'
  · subst h2; rfl
  by_cases h3 : x = '>'
  · subst h3; rfl
  by_cases h4 : x = '"'
  · subst h4; rfl
  by_cases h5 : x = '\''
  · subst h5; rfl
  simp [escapeChars, replaceAll, escChar, h1, h2, h3, h4, h5]

/-- The five sequential global replaces act independently on each character. -/
theorem escapeChars_eq_flatMap (s : List Char) : escapeChars s = s.flatMap escChar := by
  induction s with
  | nil => rfl
  | cons x xs ih =>
    rw [show x :: xs = [x] ++ xs from rfl, escapeChars_append, escapeChars_single, ih]
    simp

theorem escChar_no_reserved (c x : Char)
    (hc : c = '<' ∨ c = '>' ∨ c = '"' ∨ c = '\'') : countChar c (escChar x) = 0 := by
  unfold escChar
  by_cases h1 : x = '&'
  · subst h1; rcases hc with h | h | h | h <;> subst h <;> decide
  by_cases h2 : x = '<'
  · subst h2; rcases hc with h | h | h | h <;> subst h <;> decide
  by_cases h3 : x = '>'
  · subst h3; rcases hc with h | h | h | h <;> subst h <;> decide
  by_cases h4 : x = '"'
  · subst h4; rcases hc with h | h | h | h <;> subst h <;> decide
  by_cases h5 : x = '\''
  · subst h5; rcases hc with h | h | h | h <;> subst h <;> decide
  simp only [h1, h2, h3, h4, h5, if_false]
  have hxc : ¬(x = c) := by
    rcases hc with h | h | h | h <;> subst h <;> assumption
  simp [countChar, List.count_cons, hxc]

theorem count_flatMap_escChar (c : Char)
    (hc : c = '<' ∨ c = '>' ∨ c = '"' ∨ c = '\'') (s : List Char) :
    countChar c (s.flatMap escChar) = 0 := by
  induction s with
  | nil => rfl
  | cons x xs ih =>
    rw [List.flatMap_cons]
    unfold countChar at *
    rw [List.count_append, ih]
    have h0 := escChar_no_reserved c x hc
    unfold countChar at h0
    omega

theorem escapeXml_no_reserved (c : Char)
    (hc : c = '<' ∨ c = '>' ∨ c = '"' ∨ c = '\'') (v : Option Json) :
    countChar c (escapeXml v) = 0 := by
  unfold escapeXml
  by_cases ht : jsTruthy v
  · rw [if_neg (by simp [ht]), escapeChars_eq_flatMap]
    exact count_flatMap_escChar c hc _
  · rw [if_pos (by simp [Bool.eq_false_iff.mpr ht])]
    rfl

theorem countLt_escapeXmlStr (s : List Char) : countChar '<' (escapeXmlStr s) = 0 :=
  escapeXml_no_reserved _ (Or.inl rfl) _

theorem countGt_escapeXmlStr (s : List Char) : countChar '>' (escapeXmlStr s) = 0 :=
  escapeXml_no_reserved _ (Or.inr (Or.inl rfl)) _

theorem countQuot_escapeXmlStr (s : List Char) : countChar '"' (escapeXmlStr s) = 0 :=
  escapeXml_no_reserved _ (Or.inr (Or.inr (Or.inl rfl))) _

theorem countApos_escapeXmlStr (s : List Char) : countChar '\'' (escapeXmlStr s) = 0 :=
  escapeXml_no_reserved _ (Or.inr (Or.inr (Or.inr rfl))) _

theorem leadsWith_append_self (p t : List Char) : leadsWith p (p ++ t) = true := by
  induction p with
  | nil => rfl
  | cons x xs ih => simp [leadsWith, ih]

/-- Each escaped character block keeps the every-`&`-starts-an-entity
invariant, whatever follows. -/
theorem ampOk_escChar_append (x : Char) (t : List Char) :
    ampOk (escChar x ++ t) = ampOk t := by
  by_cases h1 : x = '&'
  · subst h1
    show ampOk ('&' :: 'a' :: 'm' :: 'p' :: ';' :: t) = ampOk t
    have he : entityFollows ('a' :: 'm' :: 'p' :: ';' :: t) = true := by
      unfold entityFollows
      rw [show ('a' :: 'm' :: 'p' :: ';' :: t) = "amp;".data ++ t from rfl,
        leadsWith_append_self]
      rfl
    simp [ampOk, he]
  by_cases h2 : x = '<'
  · subst h2; simp [escChar, ampOk, entityFollows, leadsWith]
  by_cases h3 : x = '>'
  · subst h3; simp [escChar, ampOk, entityFollows, leadsWith]
  by_cases h4 : x = '"'
  · subst h4; simp [escChar, ampOk, entityFollows, leadsWith]
  by_cases h5 : x = '\''
  · subst h5; simp [escChar, ampOk, entityFollows, leadsWith]
  · simp [escChar, h1, h2, h3, h4, h5, ampOk]

theorem ampOk_flatMap_append (s t : List Char) :
    ampOk (s.flatMap escChar ++ t) = ampOk t := by
  induction s with
  | nil => rfl
  | cons x xs ih =>
    rw [List.flatMap_cons, List.append_assoc, ampOk_escChar_append, ih]

theorem ampOk_escapeXml_append (v : Option Json) (t : List Char) :
    ampOk (escapeXml v ++ t) = ampOk t := by
  unfold escapeXml
  by_cases ht : jsTruthy v
  · rw [if_neg (by simp [ht]), escapeChars_eq_flatMap, ampOk_flatMap_append]
  · rw [if_pos (by simp [Bool.eq_false_iff.mpr ht])]
    rfl

theorem ampOk_escapeXmlStr_append (s : List Char) (t : List Char) :
    ampOk (escapeXmlStr s ++ t) = ampOk t :=
  ampOk_escapeXml_append _ t

/-- A run without `&` preserves the invariant. -/
theorem ampOk_noamp_append (a : List Char) (ha : countChar '&' a = 0) (t : List Char) :
    ampOk (a ++ t) = ampOk t := by
  induction a with
  | nil => rfl
  | cons x xs ih =>
    unfold countChar at ha ih
    rw [List.count_cons] at ha
    have hx : ¬(x = '&') := by
      intro h
      subst h
      simp at ha
    rw [List.cons_append]
    show ((if x = '&' then entityFollows (xs ++ t) else true) && ampOk (xs ++ t)) = ampOk t
    rw [if_neg hx, Bool.true_and, ih (by omega)]

/-- C5: every field value interpolated into the gateway XML transaction
document passes through `escapeXml` first: for every credential pair and
transaction data, the reserved characters `<`, `>`, `"`, `'` occur in the
built document exactly as often as in the fixed template (55, 55, 6 and 0
times — so no field value contributes an unescaped one), and every `&` in
the document starts one of the five XML entities. -/
theorem createXmlRequest_fields_escaped (apiLoginId transactionKey : List Char)
    (td : TransactionData) :
    countChar '<' (createXmlRequest apiLoginId transactionKey td) = 55 ∧
    countChar '>' (createXmlRequest apiLoginId transactionKey td) = 55 ∧
    countChar '"' (createXmlRequest apiLoginId transactionKey td) = 6 ∧
    countChar '\'' (createXmlRequest apiLoginId transactionKey td) = 0 ∧
    ampOk (createXmlRequest apiLoginId transactionKey td) = true := by
  refine ⟨?_, ?_, ?_, ?_, ?_⟩
  · unfold createXmlRequest countChar
    simp only [List.count_append,
      show ∀ t, List.count '<' (escapeXmlStr t) = 0 from countLt_escapeXmlStr]
    decide
  · unfold createXmlRequest countChar
    simp only [List.count_append,
      show ∀ t, List.count '>' (escapeXmlStr t) = 0 from countGt_escapeXmlStr]
    decide
  · unfold createXmlRequest countChar
    simp only [List.count_append,
      show ∀ t, List.count '\"' (escapeXmlStr t) = 0 from countQuot_escapeXmlStr]
    decide
  · unfold createXmlRequest countChar
    simp only [List.count_append,
      show ∀ t, List.count '\'' (escapeXmlStr t) = 0 from countApos_escapeXmlStr]
    decide
  · unfold createXmlRequest
    simp only [List.append_assoc]
    rw [ampOk_noamp_append _ (by decide), ampOk_escapeXmlStr_append,
      ampOk_noamp_append _ (by decide), ampOk_escapeXmlStr_append,
      ampOk_noamp_append _ (by decide), ampOk_escapeXmlStr_append,
      ampOk_noamp_append _ (by decide), ampOk_escapeXmlStr_append,
      ampOk_noamp_append _ (by decide), ampOk_escapeXmlStr_append,
      ampOk_noamp_append _ (by decide), ampOk_escapeXmlStr_append,
      ampOk_noamp_append _ (by decide), ampOk_escapeXmlStr_append,
      ampOk_noamp_append _ (by decide), ampOk_escapeXmlStr_append,
      ampOk_noamp_append _ (by decide), ampOk_escapeXmlStr_append,
      ampOk_noamp_append _ (by decide), ampOk_escapeXmlStr_append,
      ampOk_noamp_append _ (by decide), ampOk_escapeXmlStr_append,
      ampOk_noamp_append _ (by decide), ampOk_escapeXmlStr_append,
      ampOk_noamp_append _ (by decide), ampOk_escapeXmlStr_append,
      ampOk_noamp_append _ (by decide), ampOk_escapeXmlStr_append,
      ampOk_noamp_append _ (by decide), ampOk_escapeXmlStr_append,
      ampOk_noamp_append _ (by decide), ampOk_escapeXmlStr_append,
      ampOk_noamp_append _ (by decide), ampOk_escapeXmlStr_append,
      ampOk_noamp_append _ (by decide), ampOk_escapeXmlStr_append]
    decide

/-! ### Analysis of the response field matcher (supporting C9) -/

theorem findFirst_none {α : Type} (attempt : List Char → Option α) (pat : List Char)
    (hattempt : ∀ t, leadsWith pat t = false → attempt t = none) :
    ∀ s : List Char, hasSub pat s = false → findFirst attempt s = none := by
  intro s
  induction s with
  | nil => intro _; rfl
  | cons c rest ih =>
    intro hs
    unfold hasSub at hs
    rw [Bool.or_eq_false_iff] at hs
    unfold findFirst
    rw [hattempt _ hs.1]
    exact ih hs.2

/-- A document without the opening literal of a section yields no section
match. -/
theorem matchSection_none (tagName : List Char) (s : List Char)
    (hs : hasSub ('<' :: tagName) s = false) : matchSection tagName s = none := by
  unfold matchSection
  rw [findFirst_none _ ('<' :: tagName) (fun t ht => by simp [sectionAttempt, ht]) s hs]
  rfl

/-- C9: `parseXmlResponse` is a total function of the input string; a
document without a section leaves every field of that section absent rather
than failing, and on a reply carrying two transaction-level and two
envelope-level error entries the extracted lists are in document order. -/
theorem parseXmlResponse_tolerant :
    (∀ s, hasSub "<transactionResponse".data s = false →
      (parseXmlResponse s).transactionResponse =
        { responseCode := none, authCode := none, transId := none, errors := none }) ∧
    (∀ s, hasSub "<messages".data s = false →
      (parseXmlResponse s).messages = { resultCode := none, message := none }) ∧
    parseXmlResponse [] =
      { transactionResponse :=
          { responseCode := none, authCode := none, transId := none, errors := none },
        messages := { resultCode := none, message := none } } ∧
    parseXmlResponse sampleGatewayXml =
      { transactionResponse :=
          { responseCode := some "3".data, authCode := none, transId := none,
            errors := some [{ errorCode := "8".data, errorText := "Expired".data },
                            { errorCode := "9".data, errorText := "Other".data }] },
        messages :=
          { resultCode := some "Error".data,
            message := some [{ code := "E00027".data, text := "Bad.".data },
                             { code := "E00001".data, text := "Worse.".data }] } } := by
  refine ⟨?_, ?_, by decide, by decide⟩
  · intro s hs
    simp [parseXmlResponse, matchSection_none "transactionResponse".data s hs]
  · intro s hs
    simp [parseXmlResponse, matchSection_none "messages".data s hs]

/-- Witness for C9: a document containing neither section parses to the
all-absent response. -/
theorem parseXmlResponse_tolerant_witness :
    (parseXmlResponse "hello".data).transactionResponse =
      { responseCode := none, authCode := none, transId := none, errors := none } ∧
    (parseXmlResponse "hello".data).messages = { resultCode := none, message := none } :=
  ⟨parseXmlResponse_tolerant.1 "hello".data (by decide),
   parseXmlResponse_tolerant.2.1 "hello".data (by decide)⟩

/-! ### The `JSON.stringify` / `JSON.parse` round trip (supporting C3) -/

theorem escJsonChar_clean (c : Char) (h32 : 32 ≤ c.toNat) (hq : c ≠ '"') (hb : c ≠ '\\') :
    escJsonChar c = [c] := by
  unfold escJsonChar
  rw [if_neg hq, if_neg hb,
    if_neg (fun h => by subst h; exact absurd h32 (by decide)),
    if_neg (fun h => by subst h; exact absurd h32 (by decide)),
    if_neg (fun h => by subst h; exact absurd h32 (by decide)),
    if_neg (fun h => by subst h; exact absurd h32 (by decide)),
    if_neg (fun h => by subst h; exact absurd h32 (by decide)),
    if_neg (by omega)]

theorem skipWs_cons_of (c : Char) (l : List Char) (h : isJsonWs c = false) :
    skipWs (c :: l) = c :: l := by
  simp [skipWs, h]

/-- Parsing back an escaped string literal body recovers the string. -/
theorem parseStringBody_quote :
    ∀ s : List Char, (∀ c ∈ s, 32 ≤ c.toNat) → ∀ rest : List Char,
      parseStringBody (s.flatMap escJsonChar ++ '"' :: rest) = some (s, rest) := by
  intro s
  induction s with
  | nil =>
    intro _ rest
    rw [show ([] : List Char).flatMap escJsonChar ++ '"' :: rest = '"' :: rest by simp]
    rw [parseStringBody.eq_def]
    simp
  | cons c cs ih =>
    intro hclean rest
    have hc : 32 ≤ c.toNat := hclean c (List.mem_cons_self c cs)
    have hcs : ∀ x ∈ cs, 32 ≤ x.toNat := fun x hx => hclean x (List.mem_cons_of_mem c hx)
    rw [List.flatMap_cons]
    by_cases hq : c = '"'
    · subst hq
      rw [show escJsonChar '"' ++ cs.flatMap escJsonChar ++ '"' :: rest
          = '\\' :: '"' :: (cs.flatMap escJsonChar ++ '"' :: rest) from by rfl]
      rw [parseStringBody.eq_def]
      simp [unescChar, ih hcs rest]
    by_cases hb : c = '\\'
    · subst hb
      rw [show escJsonChar '\\' ++ cs.flatMap escJsonChar ++ '"' :: rest
          = '\\' :: '\\' :: (cs.flatMap escJsonChar ++ '"' :: rest) from by rfl]
      rw [parseStringBody.eq_def]
      simp [unescChar, ih hcs rest]
    · rw [escJsonChar_clean c hc hq hb]
      rw [show [c] ++ cs.flatMap escJsonChar ++ '"' :: rest
          = c :: (cs.flatMap escJsonChar ++ '"' :: rest) from by simp]
      rw [parseStringBody.eq_def]
      simp [hq, hb, ih hcs rest, show ¬(c.toNat < 32) from by omega]

theorem parseValue_quote_red (fuel : Nat) (Y : List Char) :
    parseValue (fuel + 1) ('"' :: Y) =
      (match parseStringBody Y with
       | some (str2, r) => some (Json.str str2, r)
       | none => none) := rfl

theorem parseValue_brace_red (fuel : Nat) (Y : List Char) :
    parseValue (fuel + 1) ('{' :: Y) =
      (match skipWs Y with
       | '}' :: r2 => some (Json.obj [], r2)
       | s2 =>
         match parseMembers fuel s2 with
         | some (ms, r2) => some (Json.obj ms, r2)
         | none => none) := rfl

theorem parseValue_bracket_red (fuel : Nat) (Y : List Char) :
    parseValue (fuel + 1) ('[' :: Y) =
      (match skipWs Y with
       | ']' :: r2 => some (Json.arr [], r2)
       | s2 =>
         match parseElements fuel s2 with
         | some (es, r2) => some (Json.arr es, r2)
         | none => none) := rfl

theorem parseMembers_quote_red (fuel : Nat) (B : List Char) :
    parseMembers (fuel + 1) ('"' :: B) =
      (match parseStringBody B with
       | some (k, r1) =>
         (match skipWs r1 with
          | ':' :: r2 =>
            (match parseValue fuel r2 with
             | some (v, r3) =>
               (match skipWs r3 with
                | ',' :: r4 =>
                  (match parseMembers fuel r4 with
                   | some (ms, r5) => some ((k, v) :: ms, r5)
                   | none => none)
                | '}' :: r4 => some ([(k, v)], r4)
                | _ => none)
             | none => none)
          | _ => none)
       | none => none) := rfl

theorem parseElements_red (fuel : Nat) (Y : List Char) :
    parseElements (fuel + 1) Y =
      (match parseValue fuel Y with
       | some (v, r) =>
         (match skipWs r with
          | ',' :: r2 =>
            (match parseElements fuel r2 with
             | some (vs, r3) => some (v :: vs, r3)
             | none => none)
          | ']' :: r2 => some ([v], r2)
          | _ => none)
       | none => none) := rfl

theorem parseValue_str_ok (fuel : Nat) (s rest : List Char) (hk : ∀ c ∈ s, 32 ≤ c.toNat) :
    parseValue (fuel + 1) ('"' :: (s.flatMap escJsonChar ++ '"' :: rest)) =
      some (.str s, rest) := by
  rw [parseValue_quote_red, parseStringBody_quote s hk rest]

theorem bracket_arm (fuel : Nat) (c0 : Char) (Z : List Char)
    (hw : isJsonWs c0 = false) (hne : c0 ≠ ']') :
    (match skipWs (c0 :: Z) with
     | ']' :: r2 => some (Json.arr [], r2)
     | s2 =>
       match parseElements fuel s2 with
       | some (es, r2) => some (Json.arr es, r2)
       | none => none) =
      (match parseElements fuel (c0 :: Z) with
       | some (es, r2) => some (Json.arr es, r2)
       | none => none) := by
  rw [skipWs_cons_of c0 Z hw]
  split
  · rename_i x r2 heq
    injection heq with h1 h2
    exact absurd h1 hne
  · rfl

theorem parseValue_arr_nonempty (fuel : Nat) (c0 : Char) (Z : List Char)
    (es : List Json) (rest : List Char) (hw : isJsonWs c0 = false) (hne : c0 ≠ ']')
    (hes : parseElements fuel (c0 :: Z) = some (es, rest)) :
    parseValue (fuel + 1) ('[' :: c0 :: Z) = some (.arr es, rest) := by
  rw [parseValue_bracket_red, bracket_arm fuel c0 Z hw hne, hes]

theorem parseValue_obj_nonempty (fuel : Nat) (B : List Char)
    (ms : List (List Char × Json)) (rest : List Char)
    (hms : parseMembers fuel ('"' :: B) = some (ms, rest)) :
    parseValue (fuel + 1) ('{' :: '"' :: B) = some (.obj ms, rest) := by
  rw [parseValue_brace_red]
  show (match parseMembers fuel ('"' :: B) with
        | some (ms, r2) => some (Json.obj ms, r2)
        | none => none) = some (Json.obj ms, rest)
  rw [hms]

theorem parseMembers_last (fuel : Nat) (k : List Char) (hk : ∀ c ∈ k, 32 ≤ c.toNat)
    (v : Json) (X rest : List Char)
    (hval : parseValue fuel X = some (v, '}' :: rest)) :
    parseMembers (fuel + 1) ('"' :: (k.flatMap escJsonChar ++ '"' :: (':' :: X)))
      = some ([(k, v)], rest) := by
  rw [parseMembers_quote_red, parseStringBody_quote k hk (':' :: X)]
  show (match parseValue fuel X with
        | some (v, r3) =>
          (match skipWs r3 with
           | ',' :: r4 =>
             (match parseMembers fuel r4 with
              | some (ms, r5) => some ((k, v) :: ms, r5)
              | none => none)
           | '}' :: r4 => some ([(k, v)], r4)
           | _ => none)
        | none => none) = some ([(k, v)], rest)
  rw [hval]
  rfl

theorem parseMembers_more (fuel : Nat) (k : List Char) (hk : ∀ c ∈ k, 32 ≤ c.toNat)
    (v : Json) (X Y : List Char) (ms : List (List Char × Json)) (rest : List Char)
    (hval : parseValue fuel X = some (v, ',' :: Y))
    (hms : parseMembers fuel Y = some (ms, rest)) :
    parseMembers (fuel + 1) ('"' :: (k.flatMap escJsonChar ++ '"' :: (':' :: X)))
      = some ((k, v) :: ms, rest) := by
  rw [parseMembers_quote_red, parseStringBody_quote k hk (':' :: X)]
  show (match parseValue fuel X with
        | some (v, r3) =>
          (match skipWs r3 with
           | ',' :: r4 =>
             (match parseMembers fuel r4 with
              | some (ms, r5) => some ((k, v) :: ms, r5)
              | none => none)
           | '}' :: r4 => some ([(k, v)], r4)
           | _ => none)
        | none => none) = some ((k, v) :: ms, rest)
  rw [hval]
  show (match parseMembers fuel Y with
        | some (ms, r5) => some ((k, v) :: ms, r5)
        | none => none) = some ((k, v) :: ms, rest)
  rw [hms]

theorem parseElements_last (fuel : Nat) (X : List Char) (v : Json) (rest : List Char)
    (hval : parseValue fuel X = some (v, ']' :: rest)) :
    parseElements (fuel + 1) X = some ([v], rest) := by
  rw [parseElements_red, hval]
  rfl

theorem parseElements_more (fuel : Nat) (X Y : List Char) (v : Json) (vs : List Json)
    (rest : List Char) (hval : parseValue fuel X = some (v, ',' :: Y))
    (hvs : parseElements fuel Y = some (vs, rest)) :
    parseElements (fuel + 1) X = some (v :: vs, rest) := by
  rw [parseElements_red, hval]
  show (match parseElements fuel Y with
        | some (vs, r3) => some (v :: vs, r3)
        | none => none) = some (v :: vs, rest)
  rw [hvs]

theorem stringify_head (v : Json) (h : serializable v = true) :
    ∃ cs c, stringifyVal v = c :: cs ∧
      (c = 'n' ∨ c = 't' ∨ c = 'f' ∨ c = '"' ∨ c = '[' ∨ c = '{') := by
  cases v with
  | null => exact ⟨_, 'n', rfl, by simp⟩
  | bool b =>
    cases b with
    | true => exact ⟨_, 't', rfl, by simp⟩
    | false => exact ⟨_, 'f', rfl, by simp⟩
  | num q => exact absurd h (by exact Bool.false_ne_true)
  | str s2 => exact ⟨_, '"', rfl, by simp⟩
  | arr es => exact ⟨_, '[', rfl, by simp⟩
  | obj fs => exact ⟨_, '{', rfl, by simp⟩

theorem asciiClean_mem (s : List Char) (h : asciiClean s = true) :
    ∀ c ∈ s, 32 ≤ c.toNat ∧ c.toNat < 128 := by
  intro c hc
  have h2 := List.all_eq_true.mp h c hc
  simpa using h2

theorem parse_stringify_rt : ∀ fuel : Nat,
    (∀ v : Json, serializable v = true → fuelNeed v < fuel → ∀ rest : List Char,
      parseValue fuel (stringifyVal v ++ rest) = some (v, rest)) ∧
    (∀ ms : List (List Char × Json), ms ≠ [] → serializableMembers ms = true →
      fuelNeedMembers ms < fuel → ∀ rest : List Char,
      parseMembers fuel (stringifyMembers ms ++ '}' :: rest) = some (ms, rest)) ∧
    (∀ es : List Json, es ≠ [] → serializableElems es = true →
      fuelNeedElems es < fuel → ∀ rest : List Char,
      parseElements fuel (stringifyElems es ++ ']' :: rest) = some (es, rest)) := by
  intro fuel
  induction fuel with
  | zero =>
    exact ⟨fun v _ h => absurd h (Nat.not_lt_zero _),
      fun ms _ _ h => absurd h (Nat.not_lt_zero _),
      fun es _ _ h => absurd h (Nat.not_lt_zero _)⟩
  | succ fuel ih =>
    obtain ⟨ihv, ihm, ihe⟩ := ih
    refine ⟨?_, ?_, ?_⟩
    · intro v hser hfuel rest
      cases v with
      | null => rfl
      | bool b => cases b <;> rfl
      | num q => exact absurd hser (by exact Bool.false_ne_true)
      | str s2 =>
        have hclean : ∀ c ∈ s2, 32 ≤ c.toNat := fun c hc => (asciiClean_mem s2 hser c hc).1
        rw [show stringifyVal (.str s2) ++ rest
            = '"' :: (s2.flatMap escJsonChar ++ '"' :: rest) from by
          show quoteJson s2 ++ rest = _
          simp [quoteJson]]
        exact parseValue_str_ok fuel s2 rest hclean
      | arr es =>
        cases es with
        | nil => rfl
        | cons e es2 =>
          have hser2 : serializableElems (e :: es2) = true := hser
          have hf2 : fuelNeedElems (e :: es2) < fuel := by
            have h2 : fuelNeedElems (e :: es2) + 1 < fuel + 1 := hfuel
            omega
          have hparts : (serializable e && serializableElems es2) = true := hser2
          rw [Bool.and_eq_true] at hparts
          obtain ⟨cs0, c0, hc0, hcs⟩ := stringify_head e hparts.1
          have hw0 : isJsonWs c0 = false := by
            rcases hcs with rfl | rfl | rfl | rfl | rfl | rfl <;> decide
          have hne0 : c0 ≠ ']' := by
            rcases hcs with rfl | rfl | rfl | rfl | rfl | rfl <;> decide
          have htail : ∃ tail, stringifyElems (e :: es2) ++ ']' :: rest
              = stringifyVal e ++ tail := by
            cases es2 with
            | nil => exact ⟨']' :: rest, by rw [show stringifyElems [e] = stringifyVal e from rfl]⟩
            | cons e2 es3 =>
              refine ⟨',' :: (stringifyElems (e2 :: es3) ++ ']' :: rest), ?_⟩
              rw [show stringifyElems (e :: e2 :: es3)
                  = stringifyVal e ++ ',' :: stringifyElems (e2 :: es3) from rfl]
              simp
          obtain ⟨tail, htl⟩ := htail
          have hinput : stringifyVal (.arr (e :: es2)) ++ rest = '[' :: (c0 :: (cs0 ++ tail)) := by
            show ('[' :: stringifyElems (e :: es2) ++ [']']) ++ rest = _
            have : ('[' :: stringifyElems (e :: es2) ++ [']']) ++ rest
                = '[' :: (stringifyElems (e :: es2) ++ ']' :: rest) := by simp
            rw [this, htl, hc0]
            simp
          rw [hinput]
          have hes : parseElements fuel (c0 :: (cs0 ++ tail)) = some (e :: es2, rest) := by
            have h0 := ihe (e :: es2) (by simp) hser2 hf2 rest
            rw [htl, hc0, List.cons_append] at h0
            exact h0
          exact parseValue_arr_nonempty fuel c0 (cs0 ++ tail) (e :: es2) rest hw0 hne0 hes
      | obj fs =>
        cases fs with
        | nil => rfl
        | cons m ms2 =>
          obtain ⟨k, v2⟩ := m
          have hser2 : serializableMembers ((k, v2) :: ms2) = true := hser
          have hf2 : fuelNeedMembers ((k, v2) :: ms2) < fuel := by
            have h2 : fuelNeedMembers ((k, v2) :: ms2) + 1 < fuel + 1 := hfuel
            omega
          have hB : ∃ B, stringifyMembers ((k, v2) :: ms2) ++ '}' :: rest = '"' :: B := by
            cases ms2 with
            | nil =>
              refine ⟨k.flatMap escJsonChar ++ '"' :: (':' :: (stringifyVal v2 ++ '}' :: rest)), ?_⟩
              show (quoteJson k ++ ':' :: stringifyVal v2) ++ '}' :: rest = _
              simp [quoteJson]
            | cons m2 ms3 =>
              refine ⟨k.flatMap escJsonChar ++ '"' :: (':' :: (stringifyVal v2 ++
                ',' :: (stringifyMembers (m2 :: ms3) ++ '}' :: rest))), ?_⟩
              show (quoteJson k ++ ':' :: stringifyVal v2 ++ ',' :: stringifyMembers (m2 :: ms3))
                  ++ '}' :: rest = _
              simp [quoteJson]
          obtain ⟨B, hBe⟩ := hB
          have hinput : stringifyVal (.obj ((k, v2) :: ms2)) ++ rest = '{' :: '"' :: B := by
            show ('{' :: stringifyMembers ((k, v2) :: ms2) ++ ['}']) ++ rest = _
            have : ('{' :: stringifyMembers ((k, v2) :: ms2) ++ ['}']) ++ rest
                = '{' :: (stringifyMembers ((k, v2) :: ms2) ++ '}' :: rest) := by simp
            rw [this, hBe]
          rw [hinput]
          have hms : parseMembers fuel ('"' :: B) = some ((k, v2) :: ms2, rest) := by
            have h0 := ihm ((k, v2) :: ms2) (by simp) hser2 hf2 rest
            rw [hBe] at h0
            exact h0
          exact parseValue_obj_nonempty fuel B ((k, v2) :: ms2) rest hms
    · intro ms hne hserm hfuel rest
      cases ms with
      | nil => exact absurd rfl hne
      | cons m ms2 =>
        obtain ⟨k, v2⟩ := m
        have hparts : (asciiClean k && serializable v2 && serializableMembers ms2) = true := hserm
        rw [Bool.and_eq_true, Bool.and_eq_true] at hparts
        have hkc : ∀ c ∈ k, 32 ≤ c.toNat := fun c hc => (asciiClean_mem k hparts.1.1 c hc).1
        have hfv : fuelNeed v2 < fuel := by
          have h2 : max (fuelNeed v2) (fuelNeedMembers ms2) + 1 < fuel + 1 := hfuel
          have h3 := Nat.le_max_left (fuelNeed v2) (fuelNeedMembers ms2)
          omega
        cases ms2 with
        | nil =>
          rw [show stringifyMembers [(k, v2)] ++ '}' :: rest
              = '"' :: (k.flatMap escJsonChar ++ '"' :: (':' :: (stringifyVal v2 ++ '}' :: rest)))
              from by
            show (quoteJson k ++ ':' :: stringifyVal v2) ++ '}' :: rest = _
            simp [quoteJson]]
          exact parseMembers_last fuel k hkc v2 (stringifyVal v2 ++ '}' :: rest) rest
            (ihv v2 hparts.1.2 hfv ('}' :: rest))
        | cons m2 ms3 =>
          have hfm : fuelNeedMembers (m2 :: ms3) < fuel := by
            have h2 : max (fuelNeed v2) (fuelNeedMembers (m2 :: ms3)) + 1 < fuel + 1 := hfuel
            have h3 := Nat.le_max_right (fuelNeed v2) (fuelNeedMembers (m2 :: ms3))
            omega
          rw [show stringifyMembers ((k, v2) :: m2 :: ms3) ++ '}' :: rest
              = '"' :: (k.flatMap escJsonChar ++ '"' :: (':' :: (stringifyVal v2 ++
                ',' :: (stringifyMembers (m2 :: ms3) ++ '}' :: rest)))) from by
            show (quoteJson k ++ ':' :: stringifyVal v2 ++ ',' :: stringifyMembers (m2 :: ms3))
                ++ '}' :: rest = _
            simp [quoteJson]]
          exact parseMembers_more fuel k hkc v2
            (stringifyVal v2 ++ ',' :: (stringifyMembers (m2 :: ms3) ++ '}' :: rest))
            (stringifyMembers (m2 :: ms3) ++ '}' :: rest) (m2 :: ms3) rest
            (ihv v2 hparts.1.2 hfv (',' :: (stringifyMembers (m2 :: ms3) ++ '}' :: rest)))
            (ihm (m2 :: ms3) (by simp) hparts.2 hfm rest)
    · intro es hne hsere hfuel rest
      cases es with
      | nil => exact absurd rfl hne
      | cons e es2 =>
        have hparts : (serializable e && serializableElems es2) = true := hsere
        rw [Bool.and_eq_true] at hparts
        have hfe : fuelNeed e < fuel := by
          have h2 : max (fuelNeed e) (fuelNeedElems es2) + 1 < fuel + 1 := hfuel
          have h3 := Nat.le_max_left (fuelNeed e) (fuelNeedElems es2)
          omega
        cases es2 with
        | nil =>
          rw [show stringifyElems [e] ++ ']' :: rest = stringifyVal e ++ ']' :: rest from rfl]
          exact parseElements_last fuel (stringifyVal e ++ ']' :: rest) e rest
            (ihv e hparts.1 hfe (']' :: rest))
        | cons e2 es3 =>
          have hfes : fuelNeedElems (e2 :: es3) < fuel := by
            have h2 : max (fuelNeed e) (fuelNeedElems (e2 :: es3)) + 1 < fuel + 1 := hfuel
            have h3 := Nat.le_max_right (fuelNeed e) (fuelNeedElems (e2 :: es3))
            omega
          rw [show stringifyElems (e :: e2 :: es3) ++ ']' :: rest
              = stringifyVal e ++ ',' :: (stringifyElems (e2 :: es3) ++ ']' :: rest) from by
            rw [show stringifyElems (e :: e2 :: es3)
                = stringifyVal e ++ ',' :: stringifyElems (e2 :: es3) from rfl]
            simp]
          exact parseElements_more fuel
            (stringifyVal e ++ ',' :: (stringifyElems (e2 :: es3) ++ ']' :: rest))
            (stringifyElems (e2 :: es3) ++ ']' :: rest) e (e2 :: es3) rest
            (ihv e hparts.1 hfe (',' :: (stringifyElems (e2 :: es3) ++ ']' :: rest)))
            (ihe (e2 :: es3) (by simp) hparts.2 hfes rest)

theorem natToChars_len (n : Nat) : 1 ≤ (natToChars n).length := by
  unfold natToChars
  by_cases h : n = 0
  · simp [h]
  · rw [if_neg h]
    rw [show natDigitsAux (n + 1) n
        = if n = 0 then [] else natDigitsAux n (n / 10) ++ [Char.ofNat (48 + n % 10)] from by
      rw [natDigitsAux]]
    rw [if_neg h]
    simp

theorem numToChars_len (q : ℚ) : 1 ≤ (numToChars q).length := by
  unfold numToChars
  have := natToChars_len (q.num.natAbs / q.den)
  simp [List.length_append]
  omega

theorem quoteJson_len (s : List Char) : 2 ≤ (quoteJson s).length := by
  simp [quoteJson]

theorem fuelNeed_le_aux : ∀ n : Nat,
    (∀ v : Json, sizeOf v ≤ n → fuelNeed v ≤ (stringifyVal v).length) ∧
    (∀ ms : List (List Char × Json), sizeOf ms ≤ n →
      fuelNeedMembers ms ≤ (stringifyMembers ms).length + 1) ∧
    (∀ es : List Json, sizeOf es ≤ n →
      fuelNeedElems es ≤ (stringifyElems es).length + 1) := by
  intro n
  induction n with
  | zero =>
    refine ⟨?_, ?_, ?_⟩ <;> intro x hx <;> exact absurd hx (by cases x <;> simp)
  | succ n ihn =>
    obtain ⟨ihv, ihm, ihe⟩ := ihn
    refine ⟨?_, ?_, ?_⟩
    · intro v hv
      cases v with
      | null => decide
      | bool b => cases b <;> decide
      | num q =>
        rw [show fuelNeed (.num q) = 1 from rfl,
          show stringifyVal (.num q) = numToChars q from rfl]
        exact numToChars_len q
      | str s2 =>
        rw [show fuelNeed (.str s2) = 1 from rfl,
          show stringifyVal (.str s2) = quoteJson s2 from rfl]
        have := quoteJson_len s2
        omega
      | arr es =>
        have hsz : sizeOf es ≤ n := by
          have h2 : sizeOf (Json.arr es) = 1 + sizeOf es := by simp
          omega
        have h1 := ihe es hsz
        rw [show fuelNeed (.arr es) = fuelNeedElems es + 1 from rfl,
          show stringifyVal (.arr es) = '[' :: stringifyElems es ++ [']'] from rfl]
        simp only [List.length_cons, List.length_append, List.length_singleton]
        omega
      | obj fs =>
        have hsz : sizeOf fs ≤ n := by
          have h2 : sizeOf (Json.obj fs) = 1 + sizeOf fs := by simp
          omega
        have h1 := ihm fs hsz
        rw [show fuelNeed (.obj fs) = fuelNeedMembers fs + 1 from rfl,
          show stringifyVal (.obj fs) = '{' :: stringifyMembers fs ++ ['}'] from rfl]
        simp only [List.length_cons, List.length_append, List.length_singleton]
        omega
    · intro ms hms
      cases ms with
      | nil => decide
      | cons m ms2 =>
        obtain ⟨k, v⟩ := m
        have hsz : sizeOf ((k, v) : List Char × Json) ≤ n ∧ sizeOf ms2 ≤ n := by
          have h2 : sizeOf ((k, v) :: ms2) = 1 + sizeOf (k, v) + sizeOf ms2 := by simp
          constructor <;> omega
        have hszv : sizeOf v ≤ n := by
          have h2 : sizeOf ((k, v) : List Char × Json) = 1 + sizeOf k + sizeOf v := by simp
          have h3 := hsz.1
          omega
        have h1 := ihv v hszv
        have h2 := ihm ms2 hsz.2
        have hq := quoteJson_len k
        rw [show fuelNeedMembers ((k, v) :: ms2)
            = max (fuelNeed v) (fuelNeedMembers ms2) + 1 from rfl]
        cases ms2 with
        | nil =>
          rw [show stringifyMembers [(k, v)] = quoteJson k ++ ':' :: stringifyVal v from rfl]
          have h3 : max (fuelNeed v) (fuelNeedMembers []) ≤ (stringifyVal v).length :=
            Nat.max_le.mpr ⟨h1, by rw [show fuelNeedMembers [] = 0 from rfl]; omega⟩
          simp only [List.length_append, List.length_cons]
          omega
        | cons m2 ms3 =>
          rw [show stringifyMembers ((k, v) :: m2 :: ms3)
              = quoteJson k ++ ':' :: stringifyVal v ++ ',' :: stringifyMembers (m2 :: ms3)
              from rfl]
          have h3 : max (fuelNeed v) (fuelNeedMembers (m2 :: ms3)) ≤
              (stringifyVal v).length + (stringifyMembers (m2 :: ms3)).length + 1 :=
            Nat.max_le.mpr ⟨by omega, by omega⟩
          simp only [List.length_append, List.length_cons]
          omega
    · intro es hes
      cases es with
      | nil => decide
      | cons e es2 =>
        have hsz : sizeOf e ≤ n ∧ sizeOf es2 ≤ n := by
          have h2 : sizeOf (e :: es2) = 1 + sizeOf e + sizeOf es2 := by simp
          constructor <;> omega
        have h1 := ihv e hsz.1
        have h2 := ihe es2 hsz.2
        rw [show fuelNeedElems (e :: es2) = max (fuelNeed e) (fuelNeedElems es2) + 1 from rfl]
        cases es2 with
        | nil =>
          rw [show stringifyElems [e] = stringifyVal e from rfl]
          have h3 : max (fuelNeed e) (fuelNeedElems []) ≤ (stringifyVal e).length :=
            Nat.max_le.mpr ⟨h1, by rw [show fuelNeedElems [] = 0 from rfl]; omega⟩
          omega
        | cons e2 es3 =>
          rw [show stringifyElems (e :: e2 :: es3)
              = stringifyVal e ++ ',' :: stringifyElems (e2 :: es3) from rfl]
          have h3 : max (fuelNeed e) (fuelNeedElems (e2 :: es3)) ≤
              (stringifyVal e).length + (stringifyElems (e2 :: es3)).length + 1 :=
            Nat.max_le.mpr ⟨by omega, by omega⟩
          simp only [List.length_append, List.length_cons]
          omega

theorem jsonParse_stringify (v : Json) (h : serializable v = true) :
    jsonParse (stringifyVal v) = some v := by
  have hlen := (fuelNeed_le_aux (sizeOf v)).1 v le_rfl
  have hrt := (parse_stringify_rt ((stringifyVal v).length + 1)).1 v h (by omega) []
  rw [List.append_nil] at hrt
  unfold jsonParse
  rw [hrt]
  rfl

theorem allAscii_append (a b : List Char) :
    allAscii (a ++ b) = (allAscii a && allAscii b) := by
  simp [allAscii, List.all_append]

theorem hexDigitChar_ascii : ∀ n : Nat, n < 16 → (hexDigitChar n).toNat < 128 := by decide

theorem escJsonChar_ascii (c : Char) (h : c.toNat < 128) :
    allAscii (escJsonChar c) = true := by
  unfold escJsonChar
  by_cases h1 : c = '"'
  · subst h1; decide
  rw [if_neg h1]
  by_cases h2 : c = '\\'
  · subst h2; decide
  rw [if_neg h2]
  by_cases h3 : c = '\x08'
  · subst h3; decide
  rw [if_neg h3]
  by_cases h4 : c = '\x0c'
  · subst h4; decide
  rw [if_neg h4]
  by_cases h5 : c = '\n'
  · subst h5; decide
  rw [if_neg h5]
  by_cases h6 : c = '\r'
  · subst h6; decide
  rw [if_neg h6]
  by_cases h7 : c = '\t'
  · subst h7; decide
  rw [if_neg h7]
  by_cases h8 : c.toNat < 32
  · rw [if_pos h8]
    have ha := hexDigitChar_ascii (c.toNat / 16) (by omega)
    have hb := hexDigitChar_ascii (c.toNat % 16) (by omega)
    simp [allAscii, ha, hb]
  · rw [if_neg h8]
    simp [allAscii, h]

theorem flatMap_escJson_ascii (s : List Char) (h : ∀ c ∈ s, c.toNat < 128) :
    allAscii (s.flatMap escJsonChar) = true := by
  induction s with
  | nil => rfl
  | cons c cs ih =>
    rw [List.flatMap_cons, allAscii_append,
      escJsonChar_ascii c (h c (List.mem_cons_self c cs)),
      ih (fun x hx => h x (List.mem_cons_of_mem c hx))]
    rfl

theorem quoteJson_ascii (s : List Char) (h : asciiClean s = true) :
    allAscii (quoteJson s) = true := by
  unfold quoteJson
  rw [show ('"' :: s.flatMap escJsonChar ++ ['"'])
      = ['"'] ++ s.flatMap escJsonChar ++ ['"'] from rfl]
  rw [allAscii_append, allAscii_append,
    flatMap_escJson_ascii s (fun c hc => (asciiClean_mem s h c hc).2)]
  decide

theorem stringify_ascii_aux : ∀ n : Nat,
    (∀ v : Json, sizeOf v ≤ n → serializable v = true → allAscii (stringifyVal v) = true) ∧
    (∀ ms : List (List Char × Json), sizeOf ms ≤ n → serializableMembers ms = true →
      allAscii (stringifyMembers ms) = true) ∧
    (∀ es : List Json, sizeOf es ≤ n → serializableElems es = true →
      allAscii (stringifyElems es) = true) := by
  intro n
  induction n with
  | zero =>
    refine ⟨?_, ?_, ?_⟩ <;> intro x hx _ <;> exact absurd hx (by cases x <;> simp)
  | succ n ihn =>
    obtain ⟨ihv, ihm, ihe⟩ := ihn
    refine ⟨?_, ?_, ?_⟩
    · intro v hv hser
      cases v with
      | null => decide
      | bool b => cases b <;> decide
      | num q => exact absurd hser (by exact Bool.false_ne_true)
      | str s2 => exact quoteJson_ascii s2 hser
      | arr es =>
        have hsz : sizeOf es ≤ n := by
          have h2 : sizeOf (Json.arr es) = 1 + sizeOf es := by simp
          omega
        rw [show stringifyVal (.arr es) = ['['] ++ stringifyElems es ++ [']'] from rfl,
          allAscii_append, allAscii_append, ihe es hsz hser]
        decide
      | obj fs =>
        have hsz : sizeOf fs ≤ n := by
          have h2 : sizeOf (Json.obj fs) = 1 + sizeOf fs := by simp
          omega
        rw [show stringifyVal (.obj fs) = ['{'] ++ stringifyMembers fs ++ ['}'] from rfl,
          allAscii_append, allAscii_append, ihm fs hsz hser]
        decide
    · intro ms hms hser
      cases ms with
      | nil => decide
      | cons m ms2 =>
        obtain ⟨k, v⟩ := m
        have hsz : sizeOf ((k, v) : List Char × Json) ≤ n ∧ sizeOf ms2 ≤ n := by
          have h2 : sizeOf ((k, v) :: ms2) = 1 + sizeOf (k, v) + sizeOf ms2 := by simp
          constructor <;> omega
        have hszv : sizeOf v ≤ n := by
          have h2 : sizeOf ((k, v) : List Char × Json) = 1 + sizeOf k + sizeOf v := by simp
          have h3 := hsz.1
          omega
        have hparts : (asciiClean k && serializable v && serializableMembers ms2) = true := hser
        rw [Bool.and_eq_true, Bool.and_eq_true] at hparts
        cases ms2 with
        | nil =>
          rw [show stringifyMembers [(k, v)] = quoteJson k ++ [':'] ++ stringifyVal v from by
              simp [stringifyMembers],
            allAscii_append, allAscii_append, quoteJson_ascii k hparts.1.1,
            ihv v hszv hparts.1.2]
          decide
        | cons m2 ms3 =>
          rw [show stringifyMembers ((k, v) :: m2 :: ms3)
              = quoteJson k ++ [':'] ++ stringifyVal v ++ [','] ++ stringifyMembers (m2 :: ms3)
              from by simp [stringifyMembers],
            allAscii_append, allAscii_append, allAscii_append, allAscii_append,
            quoteJson_ascii k hparts.1.1, ihv v hszv hparts.1.2,
            ihm (m2 :: ms3) hsz.2 hparts.2]
          decide
    · intro es hes hser
      cases es with
      | nil => decide
      | cons e es2 =>
        have hsz : sizeOf e ≤ n ∧ sizeOf es2 ≤ n := by
          have h2 : sizeOf (e :: es2) = 1 + sizeOf e + sizeOf es2 := by simp
          constructor <;> omega
        have hparts : (serializable e && serializableElems es2) = true := hser
        rw [Bool.and_eq_true] at hparts
        cases es2 with
        | nil =>
          rw [show stringifyElems [e] = stringifyVal e from rfl]
          exact ihv e hsz.1 hparts.1
        | cons e2 es3 =>
          rw [show stringifyElems (e :: e2 :: es3)
              = stringifyVal e ++ [','] ++ stringifyElems (e2 :: es3) from by
              simp [stringifyElems],
            allAscii_append, allAscii_append, ihv e hsz.1 hparts.1,
            ihe (e2 :: es3) hsz.2 hparts.2]
          decide

theorem utf8Step_ascii (b : Nat) (hb : b < 128) (bs : List Nat) :
    utf8Step (b :: bs) = some (b, bs) := by
  unfold utf8Step
  simp [hb]

theorem utf8DecodeAux_red (fuel : Nat) (b : Nat) (bs : List Nat) :
    utf8DecodeAux (fuel + 1) (b :: bs) =
      (match utf8Step (b :: bs) with
       | some (n, rest) => (utf8DecodeAux fuel rest).map fun cs => Char.ofNat n :: cs
       | none => none) := rfl

theorem utf8Encode_ascii (s : List Char) (h : ∀ c ∈ s, c.toNat < 128) :
    utf8Encode s = s.map Char.toNat := by
  induction s with
  | nil => rfl
  | cons c cs ih =>
    have hc : c.toNat < 128 := h c (List.mem_cons_self c cs)
    unfold utf8Encode
    rw [List.flatMap_cons, show utf8EncodeChar c = [c.toNat] from by
      unfold utf8EncodeChar
      rw [if_pos hc]]
    rw [List.map_cons, List.singleton_append]
    congr 1
    exact ih (fun x hx => h x (List.mem_cons_of_mem c hx))

theorem utf8Aux_ascii : ∀ fuel : Nat, ∀ s : List Char, (∀ c ∈ s, c.toNat < 128) →
    s.length < fuel → utf8DecodeAux fuel (utf8Encode s) = some s := by
  intro fuel
  induction fuel with
  | zero => intro s _ h; exact absurd h (by omega)
  | succ fuel ih =>
    intro s hs hlen
    cases s with
    | nil => rfl
    | cons c cs =>
      have hc : c.toNat < 128 := hs c (List.mem_cons_self c cs)
      have hcs : ∀ x ∈ cs, x.toNat < 128 := fun x hx => hs x (List.mem_cons_of_mem c hx)
      rw [show utf8Encode (c :: cs) = c.toNat :: utf8Encode cs from by
        unfold utf8Encode
        rw [List.flatMap_cons, show utf8EncodeChar c = [c.toNat] from by
          unfold utf8EncodeChar
          rw [if_pos hc]]
        rfl]
      rw [utf8DecodeAux_red, utf8Step_ascii c.toNat hc (utf8Encode cs)]
      show (utf8DecodeAux fuel (utf8Encode cs)).map (fun l => Char.ofNat c.toNat :: l)
          = some (c :: cs)
      rw [ih cs hcs (by simp at hlen ⊢; omega)]
      simp

theorem utf8_ascii_rt (s : List Char) (h : ∀ c ∈ s, c.toNat < 128) :
    utf8Decode (utf8Encode s) = some s := by
  unfold utf8Decode
  apply utf8Aux_ascii
  · exact h
  · rw [utf8Encode_ascii s h]
    simp

theorem b64ValOf_b64CharOf : ∀ n : Nat, n < 64 → b64ValOf (b64CharOf n) = some n := by decide

theorem b64CharOf_ne_pad : ∀ n : Nat, n < 64 → b64CharOf n ≠ '=' := by decide

theorem b64_rt : ∀ n : Nat, ∀ bs : List Nat, bs.length ≤ n → (∀ b ∈ bs, b < 256) →
    b64decode (b64encode bs) = some bs := by
  intro n
  induction n with
  | zero =>
    intro bs hlen hb
    match bs with
    | [] => rfl
    | b :: bs2 => simp at hlen
  | succ n ih =>
    intro bs hlen hb
    match bs with
    | [] => rfl
    | [a] =>
      have ha : a < 256 := hb a (by simp)
      have hv1 := b64ValOf_b64CharOf (a / 4) (by omega)
      have hv2 := b64ValOf_b64CharOf (a % 4 * 16) (by omega)
      simp [b64encode, b64decode, hv1, hv2]
      omega
    | [a, b] =>
      have ha : a < 256 := hb a (by simp)
      have hbb : b < 256 := hb b (by simp)
      have hv1 := b64ValOf_b64CharOf (a / 4) (by omega)
      have hv2 := b64ValOf_b64CharOf (a % 4 * 16 + b / 16) (by omega)
      have hv3 := b64ValOf_b64CharOf (b % 16 * 4) (by omega)
      have hp3 := b64CharOf_ne_pad (b % 16 * 4) (by omega)
      simp [b64encode, b64decode, hv1, hv2, hv3, hp3]
      omega
    | a :: b :: c :: rest =>
      have ha : a < 256 := hb a (by simp)
      have hbb : b < 256 := hb b (by simp)
      have hc : c < 256 := hb c (by simp)
      have hv1 := b64ValOf_b64CharOf (a / 4) (by omega)
      have hv2 := b64ValOf_b64CharOf (a % 4 * 16 + b / 16) (by omega)
      have hv3 := b64ValOf_b64CharOf (b % 16 * 4 + c / 64) (by omega)
      have hv4 := b64ValOf_b64CharOf (c % 64) (by omega)
      have hp3 := b64CharOf_ne_pad (b % 16 * 4 + c / 64) (by omega)
      have hp4 := b64CharOf_ne_pad (c % 64) (by omega)
      have hrest : b64decode (b64encode rest) = some rest := by
        apply ih rest (by simp at hlen; omega)
        intro x hx
        exact hb x (by simp [hx])
      simp [b64encode, b64decode, hv1, hv2, hv3, hv4, hp3, hp4, hrest]
      refine ⟨by omega, by omega, by omega⟩


/-- C3: for every serializable `paymentData` object, the transport
`dataValue` computed by `processApplePayTransaction` — the base64 of the
UTF-8 bytes of `JSON.stringify(paymentData)` — reproduces the original
object exactly when base64-decoded and JSON-parsed. -/
theorem dataValue_roundtrip (pd : Json) (hser : serializable pd = true)
    (_hobj : isObjVal pd = true) :
    (b64decode (dataValueOf pd)).bind (fun bytes => (utf8Decode bytes).bind jsonParse)
      = some pd := by
  have hascii : allAscii (stringifyVal pd) = true :=
    (stringify_ascii_aux (sizeOf pd)).1 pd le_rfl hser
  have hmem : ∀ c ∈ stringifyVal pd, c.toNat < 128 := by
    intro c hc
    have h2 := List.all_eq_true.mp hascii c hc
    simpa using h2
  have hbytes : ∀ b ∈ utf8Encode (stringifyVal pd), b < 256 := by
    rw [utf8Encode_ascii _ hmem]
    intro b hbmem
    obtain ⟨c, hcmem, rfl⟩ := List.mem_map.mp hbmem
    have := hmem c hcmem
    omega
  unfold dataValueOf
  rw [b64_rt (utf8Encode (stringifyVal pd)).length _ le_rfl hbytes]
  show (utf8Decode (utf8Encode (stringifyVal pd))).bind jsonParse = some pd
  rw [utf8_ascii_rt _ hmem]
  show jsonParse (stringifyVal pd) = some pd
  exact jsonParse_stringify pd hser

/-- Witness for C3 at the wallet-token `paymentData` of the spec's concrete
scenario (data, signature, three-field header, version). -/
theorem dataValue_roundtrip_witness :
    serializable (Json.obj [("data".data, .str "AB==".data),
      ("signature".data, .str "sig".data),
      ("header".data, .obj [("publicKeyHash".data, .str "ph".data),
        ("ephemeralPublicKey".data, .str "ek".data),
        ("transactionId".data, .str "t1".data)]),
      ("version".data, .str "EC_v1".data)]) = true ∧
    (b64decode (dataValueOf (Json.obj [("data".data, .str "AB==".data),
      ("signature".data, .str "sig".data),
      ("header".data, .obj [("publicKeyHash".data, .str "ph".data),
        ("ephemeralPublicKey".data, .str "ek".data),
        ("transactionId".data, .str "t1".data)]),
      ("version".data, .str "EC_v1".data)]))).bind
        (fun bytes => (utf8Decode bytes).bind jsonParse) =
      some (Json.obj [("data".data, .str "AB==".data),
        ("signature".data, .str "sig".data),
        ("header".data, .obj [("publicKeyHash".data, .str "ph".data),
          ("ephemeralPublicKey".data, .str "ek".data),
          ("transactionId".data, .str "t1".data)]),
        ("version".data, .str "EC_v1".data)]) :=
  ⟨by decide, dataValue_roundtrip _ (by decide) (by decide)⟩

end ApplePayPoc
